import Mathlib

/-!
Verification development for the v2 pricing-scraper pipeline.

Shallow embedding of the core modules:
  * `src/v2/models.py`       — data model and schema validation
  * `src/v2/llm_client.py`   — structured-extraction client (error handling, salvage)
  * `src/v2/html_cleaner.py` — content reducer (5-pass cleaning + truncation)
  * `src/v2/extractor.py`    — tiered extraction cascade and quality gate
  * `src/v2/orchestrator.py` — batch orchestrator (expansion, isolation)

Python strings that undergo character-level processing are modelled as
`List Char`; Python floats carrying prices are modelled as `ℚ` (they are
only stored and compared for nullness); external effects (the LLM call,
the filesystem, the browser) are modelled as explicit parameters.
-/

/-! ### Data model (`src/v2/models.py`)

`BillingPeriod`, `TargetAudience`, `Confidence` are `str`-valued enums;
`PricingPlan` and `PricingExtraction` are the Pydantic models.  The models
declare NO validators beyond field typing: `plan_name`/currency fields are
strings, the three price fields are `Optional[float]` (default `None`),
the flags are required booleans, `notes`/`extraction_notes` are optional
strings.
-/

inductive BillingPeriod where
  | monthly
  | annual
  | weekly
  | quarterly
deriving DecidableEq, Repr

inductive TargetAudience where
  | individual
  | family
  | student
  | team
  | enterprise
deriving DecidableEq, Repr

inductive Confidence where
  | high
  | medium
  | low
deriving DecidableEq, Repr

structure PricingPlan where
  plan_name : String
  monthly_price : Option ℚ
  annual_price : Option ℚ
  annual_monthly_equivalent : Option ℚ
  billing_periods_available : List BillingPeriod
  is_free_tier : Bool
  is_contact_sales : Bool
  target_audience : TargetAudience
  key_features : List String
  notes : Option String
deriving DecidableEq, Repr

structure PricingExtraction where
  currency_code : String
  currency_symbol : String
  plans : List PricingPlan
  extraction_confidence : Confidence
  extraction_notes : Option String
deriving DecidableEq, Repr

/-! ### JSON payloads and schema validation

The structured-extraction service returns a JSON object (the `tool_use`
block's `input`).  `model_validate` is Pydantic validation of that payload
against the schema above: required fields must be present with the right
type, optional fields default to `None`, enum fields must be one of the
declared literals, and extra keys are ignored.  There is no model-level
validator, so no cross-field constraint is checked.
-/

inductive Json where
  | null
  | bool (b : Bool)
  | num (q : ℚ)
  | str (s : String)
  | arr (xs : List Json)
  | obj (kvs : List (String × Json))

/-- Look a key up in a JSON object's key/value list (Python dict access;
keys are unique in a dict, so first match). -/
def Json.lookup (key : String) : List (String × Json) → Option Json
  | [] => none
  | (k, v) :: rest => if k = key then some v else Json.lookup key rest

def parseBillingPeriod : Json → Except String BillingPeriod
  | .str s =>
      if s = "monthly" then .ok .monthly
      else if s = "annual" then .ok .annual
      else if s = "weekly" then .ok .weekly
      else if s = "quarterly" then .ok .quarterly
      else .error ("invalid BillingPeriod: " ++ s)
  | _ => .error ("BillingPeriod: expected string")

def parseTargetAudience : Json → Except String TargetAudience
  | .str s =>
      if s = "individual" then .ok .individual
      else if s = "family" then .ok .family
      else if s = "student" then .ok .student
      else if s = "team" then .ok .team
      else if s = "enterprise" then .ok .enterprise
      else .error ("invalid TargetAudience: " ++ s)
  | _ => .error ("TargetAudience: expected string")

def parseConfidence : Json → Except String Confidence
  | .str s =>
      if s = "high" then .ok .high
      else if s = "medium" then .ok .medium
      else if s = "low" then .ok .low
      else .error ("invalid Confidence: " ++ s)
  | _ => .error ("Confidence: expected string")

/-- A required string field. -/
def fieldStr (kvs : List (String × Json)) (key : String) : Except String String :=
  match Json.lookup key kvs with
  | some (.str s) => .ok s
  | some _ => .error (key ++ ": expected string")
  | none => .error (key ++ ": field required")

/-- An optional (`Optional[float]`, default `None`) numeric field:
missing or `null` yields `none`; a JSON number yields the number. -/
def fieldOptNum (kvs : List (String × Json)) (key : String) : Except String (Option ℚ) :=
  match Json.lookup key kvs with
  | none => .ok none
  | some .null => .ok none
  | some (.num q) => .ok (some q)
  | some _ => .error (key ++ ": expected number or null")

/-- An optional (`Optional[str]`, default `None`) string field. -/
def fieldOptStr (kvs : List (String × Json)) (key : String) : Except String (Option String) :=
  match Json.lookup key kvs with
  | none => .ok none
  | some .null => .ok none
  | some (.str s) => .ok (some s)
  | some _ => .error (key ++ ": expected string or null")

/-- A required boolean field. -/
def fieldBool (kvs : List (String × Json)) (key : String) : Except String Bool :=
  match Json.lookup key kvs with
  | some (.bool b) => .ok b
  | some _ => .error (key ++ ": expected boolean")
  | none => .error (key ++ ": field required")

def parseListWith (f : Json → Except String α) : List Json → Except String (List α)
  | [] => .ok []
  | j :: rest => do
      let a ← f j
      let as ← parseListWith f rest
      .ok (a :: as)

def fieldList (kvs : List (String × Json)) (key : String) (f : Json → Except String α) :
    Except String (List α) :=
  match Json.lookup key kvs with
  | some (.arr xs) => parseListWith f xs
  | some _ => .error (key ++ ": expected array")
  | none => .error (key ++ ": field required")

/-- `PricingPlan.model_validate`: field-by-field validation of a JSON
payload; no model validator exists, so no relation between the flags and
the price fields is checked. -/
def PricingPlan.model_validate : Json → Except String PricingPlan
  | .obj kvs => do
      let plan_name ← fieldStr kvs ("plan_name")
      let monthly_price ← fieldOptNum kvs ("monthly_price")
      let annual_price ← fieldOptNum kvs ("annual_price")
      let annual_monthly_equivalent ← fieldOptNum kvs ("annual_monthly_equivalent")
      let billing ← fieldList kvs ("billing_periods_available") parseBillingPeriod
      let is_free_tier ← fieldBool kvs ("is_free_tier")
      let is_contact_sales ← fieldBool kvs ("is_contact_sales")
      let target_audience ← match Json.lookup ("target_audience") kvs with
        | some j => parseTargetAudience j
        | none => .error ("target_audience: field required")
      let key_features ← fieldList kvs ("key_features") (fun j =>
        match j with
        | .str s => .ok s
        | _ => .error ("key_features: expected string"))
      let notes ← fieldOptStr kvs ("notes")
      .ok { plan_name := plan_name, monthly_price := monthly_price,
            annual_price := annual_price,
            annual_monthly_equivalent := annual_monthly_equivalent,
            billing_periods_available := billing, is_free_tier := is_free_tier,
            is_contact_sales := is_contact_sales, target_audience := target_audience,
            key_features := key_features, notes := notes }
  | _ => .error ("PricingPlan: expected object")

/-- `PricingExtraction.model_validate`. -/
def PricingExtraction.model_validate : Json → Except String PricingExtraction
  | .obj kvs => do
      let currency_code ← fieldStr kvs ("currency_code")
      let currency_symbol ← fieldStr kvs ("currency_symbol")
      let plans ← fieldList kvs ("plans") PricingPlan.model_validate
      let conf ← match Json.lookup ("extraction_confidence") kvs with
        | some j => parseConfidence j
        | none => .error ("extraction_confidence: field required")
      let notes ← fieldOptStr kvs ("extraction_notes")
      .ok { currency_code := currency_code, currency_symbol := currency_symbol,
            plans := plans, extraction_confidence := conf,
            extraction_notes := notes }
  | _ => .error ("PricingExtraction: expected object")

/-! ### Structured-extraction client (`src/v2/llm_client.py`)

The Anthropic API call is external; its outcome is modelled by
`ServiceOutcome`: either the call raised `anthropic.APIError` (which the
source catches — unreachable/rate-limited/HTTP errors are all subclasses)
or it returned a response, a list of content blocks.  `_parse_response`
looks for the forced `tool_use` block and validates its `input`;
`_error_result` builds the degraded low-confidence result, salvaging
currency fields and individually valid plans from a malformed payload.
-/

structure ContentBlock where
  btype : String
  name : String
  input : Json

inductive ServiceOutcome where
  | response (blocks : List ContentBlock)
  | apiError (msg : String)

/-- `_error_result(message, raw_input)`: low-confidence degraded result.
The salvage branch runs only when `raw_input` is a truthy dict (Python:
`if raw_input and isinstance(raw_input, dict)` — `None`, `{}` and
non-dict values all skip it). -/
def error_result (message : String) (raw_input : Option Json) : PricingExtraction :=
  let defaults : String × String × List PricingPlan := ("UNKNOWN", "?", [])
  let salvaged :=
    match raw_input with
    | some (.obj kvs) =>
        if kvs.isEmpty then defaults
        else
          let currency_code :=
            match Json.lookup ("currency_code") kvs with
            | some (.str s) => s
            | _ => "UNKNOWN"
          let currency_symbol :=
            match Json.lookup ("currency_symbol") kvs with
            | some (.str s) => s
            | _ => "?"
          let plans :=
            match Json.lookup ("plans") kvs with
            | some (.arr xs) =>
                xs.filterMap (fun j =>
                  match PricingPlan.model_validate j with
                  | .ok p => some p
                  | .error _ => none)
            | _ => []
          (currency_code, currency_symbol, plans)
    | _ => defaults
  { currency_code := salvaged.1, currency_symbol := salvaged.2.1,
    plans := salvaged.2.2, extraction_confidence := .low,
    extraction_notes := some message }

/-- First content block with `type == "tool_use"` and
`name == "extract_pricing_data"`, if any. -/
def findToolUse : List ContentBlock → Option Json
  | [] => none
  | b :: rest =>
      if b.btype = "tool_use" ∧ b.name = "extract_pricing_data" then some b.input
      else findToolUse rest

/-- `_parse_response`. -/
def parse_response (blocks : List ContentBlock) : PricingExtraction :=
  match findToolUse blocks with
  | none => error_result ("No tool_use block in Claude response") none
  | some input =>
      match PricingExtraction.model_validate input with
      | .ok r => r
      | .error e => error_result ("Pydantic validation failed: " ++ e) (some input)

/-- `extract_pricing`, as a function of the service-call outcome.  The
source wraps only the API call in `try/except anthropic.APIError`; every
other path is straight-line code returning a `PricingExtraction`, so the
function is total over `ServiceOutcome` — it never raises for any of the
outcomes of the external call. -/
def extract_pricing : ServiceOutcome → PricingExtraction
  | .apiError e => error_result ("Anthropic API error: " ++ e) none
  | .response blocks => parse_response blocks

/-- Failure outcomes of the service call: the API raised, the response had
no forced tool block, or its payload failed schema validation. -/
def outcomeFails : ServiceOutcome → Bool
  | .apiError _ => true
  | .response blocks =>
      match findToolUse blocks with
      | none => true
      | some input =>
          match PricingExtraction.model_validate input with
          | .ok _ => false
          | .error _ => true

/-! ### Content reducer (`src/v2/html_cleaner.py`)

`clean_html` parses the raw HTML with BeautifulSoup's `html.parser`,
applies five cleaning passes to the parse tree, and truncates oversized
results.  The parse tree is embedded as a mutual inductive
(`HtmlNode`/`HtmlForest`); the parser below models `html.parser`/bs4
behaviour on the HTML fragment relevant here: tags open/close by name,
close tags pop to the matching open tag (unmatched close tags are
ignored), tags left open at end of input are closed, tag names are
lowercased, character references in text are resolved, and serialisation
re-escapes `&`, `<`, `>` in text.
-/

mutual
inductive HtmlNode where
  | elem (name : String) (attrs : List (String × String)) (children : HtmlForest)
  | text (s : List Char)
  | comment (s : List Char)
deriving DecidableEq
inductive HtmlForest where
  | nil
  | cons (hd : HtmlNode) (tl : HtmlForest)
deriving DecidableEq
end

def HtmlForest.ofList : List HtmlNode → HtmlForest
  | [] => .nil
  | n :: ns => .cons n (HtmlForest.ofList ns)

/-- Python regex `\s` / `str.strip` whitespace (ASCII part). -/
def isWsChar (c : Char) : Bool :=
  c = ' ' || c = '\t' || c = '\n' || c = '\r' || c = Char.ofNat 11 || c = Char.ofNat 12

/-- Characters matched by the regex class `[ \t]`. -/
def isSpaceTab (c : Char) : Bool := c = ' ' || c = '\t'

/-- bs4 text-node escaping on output: `&`, `<`, `>`. -/
def escapeChar (c : Char) : List Char :=
  if c = '&' then ('&' :: 'a' :: 'm' :: 'p' :: ';' :: [])
  else if c = '<' then ('&' :: 'l' :: 't' :: ';' :: [])
  else if c = '>' then ('&' :: 'g' :: 't' :: ';' :: [])
  else [c]

def escapeText : List Char → List Char
  | [] => []
  | c :: cs => escapeChar c ++ escapeText cs

def escapeAttrChar (c : Char) : List Char :=
  if c = '&' then ('&' :: 'a' :: 'm' :: 'p' :: ';' :: [])
  else if c = '"' then ('&' :: 'q' :: 'u' :: 'o' :: 't' :: ';' :: [])
  else [c]

def escapeAttrVal : List Char → List Char
  | [] => []
  | c :: cs => escapeAttrChar c ++ escapeAttrVal cs

/-- Character references resolved by `html.parser` (`convert_charrefs`);
the named references that can appear in this development's documents. -/
def unescapeText : List Char → List Char
  | '&' :: 'a' :: 'm' :: 'p' :: ';' :: cs => '&' :: unescapeText cs
  | '&' :: 'l' :: 't' :: ';' :: cs => '<' :: unescapeText cs
  | '&' :: 'g' :: 't' :: ';' :: cs => '>' :: unescapeText cs
  | '&' :: 'q' :: 'u' :: 'o' :: 't' :: ';' :: cs => '"' :: unescapeText cs
  | c :: cs => c :: unescapeText cs
  | [] => []

/-- bs4's empty-element (void) tags: serialised as `<name/>` and given no
children when parsed. -/
def voidTags : List String :=
  ["area", "base", "br", "col", "embed", "hr", "img", "input", "link",
   "meta", "param", "source", "track", "wbr"]

def serializeAttrs : List (String × String) → List Char
  | [] => []
  | (k, v) :: rest =>
      ' ' :: (k.toList ++ '=' :: '"' :: (escapeAttrVal v.toList ++ '"' :: serializeAttrs rest))

mutual
/-- `str(tag)` for one node. -/
def serializeNode : HtmlNode → List Char
  | .text s => escapeText s
  | .comment s => ('<' :: '!' :: '-' :: '-' :: []) ++ s ++ ('-' :: '-' :: '>' :: [])
  | .elem name attrs children =>
      if voidTags.contains name then
        '<' :: (name.toList ++ serializeAttrs attrs ++ ('/' :: '>' :: []))
      else
        '<' :: (name.toList ++ serializeAttrs attrs ++ '>' :: serializeForest children)
          ++ ('<' :: '/' :: name.toList) ++ ['>']
/-- `str(soup)`: concatenation over the forest. -/
def serializeForest : HtmlForest → List Char
  | .nil => []
  | .cons n ns => serializeNode n ++ serializeForest ns
end

/-! #### Parser (tokenizer + tree builder) -/

inductive HtmlTok where
  | topen (name : String) (attrs : List (String × String)) (selfClosing : Bool)
  | tclose (name : String)
  | ttext (s : List Char)
  | tcomment (s : List Char)

/-- Attribute parsing inside a start tag (`key="value"` pairs). -/
def parseAttrsF : Nat → List Char → List (String × String)
  | 0, _ => []
  | _, [] => []
  | fuel + 1, cs =>
      let cs1 := cs.dropWhile (fun c => c = ' ')
      match cs1 with
      | [] => []
      | _ :: _ =>
        let key := cs1.takeWhile (fun c => ¬ (c = '=' ∨ c = ' '))
        let rest := cs1.drop key.length
        match rest with
        | '=' :: '"' :: r2 =>
            let v := r2.takeWhile (fun c => c ≠ '"')
            (String.mk (key.map Char.toLower), String.mk v)
              :: parseAttrsF fuel (r2.drop (v.length + 1))
        | _ => (String.mk (key.map Char.toLower), "") :: parseAttrsF fuel rest

/-- Classify the contents of one `<...>` construct. -/
def mkTag (content : List Char) : HtmlTok :=
  match content with
  | '/' :: rest => .tclose (String.mk ((rest.takeWhile (fun c => c ≠ ' ')).map Char.toLower))
  | '!' :: rest => .tcomment rest
  | _ =>
      let selfClosing : Bool := content.getLast? = some '/'
      let content2 := if selfClosing then content.dropLast else content
      let nameCs := content2.takeWhile (fun c => c ≠ ' ')
      let attrTail := content2.drop nameCs.length
      .topen (String.mk (nameCs.map Char.toLower)) (parseAttrsF attrTail.length attrTail)
        selfClosing

def flushText (acc : List Char) (toks : List HtmlTok) : List HtmlTok :=
  if acc.isEmpty then toks else .ttext (unescapeText acc.reverse) :: toks

/-- Tokenizer: single pass; the Bool is the in-tag state, `acc` the
current run (reversed).  Markup left unterminated at end of input is
emitted as data, as `html.parser` does on `close()`. -/
def tokenizeAux : List Char → Bool → List Char → List HtmlTok
  | [], false, acc => flushText acc []
  | [], true, acc => [.ttext (unescapeText ('<' :: acc.reverse))]
  | c :: cs, false, acc =>
      if c = '<' then flushText acc (tokenizeAux cs true []) else tokenizeAux cs false (c :: acc)
  | c :: cs, true, acc =>
      if c = '>' then mkTag acc.reverse :: tokenizeAux cs false [] else tokenizeAux cs true (c :: acc)

structure OpenFrame where
  name : String
  attrs : List (String × String)
  rchildren : List HtmlNode

def closeFrame (f : OpenFrame) : HtmlNode :=
  .elem f.name f.attrs (HtmlForest.ofList f.rchildren.reverse)

/-- Attach a finished node to the enclosing open tag (or the document). -/
def pushNode (n : HtmlNode) : List OpenFrame → List HtmlNode → List OpenFrame × List HtmlNode
  | [], acc => ([], n :: acc)
  | f :: fs, acc => (⟨f.name, f.attrs, n :: f.rchildren⟩ :: fs, acc)

/-- A close tag pops open tags down to the matching one, implicitly
closing the tags above it (bs4 `_popToTag`).  Fuel is the stack depth. -/
def popUntilF : Nat → String → List OpenFrame → List HtmlNode → List OpenFrame × List HtmlNode
  | 0, _, stk, acc => (stk, acc)
  | _ + 1, _, [], acc => ([], acc)
  | fuel + 1, nm, f :: fs, acc =>
      match fs with
      | [] =>
          if f.name = nm then ([], closeFrame f :: acc)
          else popUntilF fuel nm [] (closeFrame f :: acc)
      | g :: gs =>
          if f.name = nm then (⟨g.name, g.attrs, closeFrame f :: g.rchildren⟩ :: gs, acc)
          else popUntilF fuel nm (⟨g.name, g.attrs, closeFrame f :: g.rchildren⟩ :: gs) acc

/-- End of input: every still-open tag is closed (bs4 `endData`/close). -/
def drainF : Nat → List OpenFrame → List HtmlNode → List HtmlNode
  | 0, _, acc => acc.reverse
  | _ + 1, [], acc => acc.reverse
  | fuel + 1, f :: fs, acc =>
      match fs with
      | [] => drainF fuel [] (closeFrame f :: acc)
      | g :: gs => drainF fuel (⟨g.name, g.attrs, closeFrame f :: g.rchildren⟩ :: gs) acc

def buildAux : List HtmlTok → List OpenFrame → List HtmlNode → List HtmlNode
  | [], stk, acc => drainF stk.length stk acc
  | t :: ts, stk, acc =>
      match t with
      | .ttext s =>
          let sa := pushNode (.text s) stk acc
          buildAux ts sa.1 sa.2
      | .tcomment s =>
          let sa := pushNode (.comment s) stk acc
          buildAux ts sa.1 sa.2
      | .topen n a sc =>
          if sc || voidTags.contains n then
            let sa := pushNode (.elem n a .nil) stk acc
            buildAux ts sa.1 sa.2
          else buildAux ts (⟨n, a, []⟩ :: stk) acc
      | .tclose n =>
          if stk.any (fun f => f.name = n) then
            let sa := popUntilF stk.length n stk acc
            buildAux ts sa.1 sa.2
          else buildAux ts stk acc

/-- Parse raw markup into a document forest (BeautifulSoup(raw, "html.parser")). -/
def parseHtml (x : List Char) : HtmlForest :=
  HtmlForest.ofList (buildAux (tokenizeAux x false []) [] [])

/-! #### The five cleaning passes -/

def NOISE_TAGS : List String :=
  ["script", "style", "svg", "noscript", "link", "meta",
   "iframe", "img", "picture", "source", "video", "audio",
   "canvas", "map", "object", "embed"]

def STRUCTURAL_NOISE_TAGS : List String := ["nav", "footer", "header"]

def KEEP_ATTRS : List String := ["aria-label", "alt", "title", "role", "data-testid"]

def PRESERVE_EMPTY : List String := ["br", "hr", "td", "th", "tr", "thead", "tbody", "table"]

def MAX_OUTPUT_CHARS : Nat := 20000

mutual
/-- Remove (decompose) every element whose name is listed. -/
def removeTagsN (names : List String) : HtmlNode → Option HtmlNode
  | .elem n a cs => if names.contains n then none else some (.elem n a (removeTagsF names cs))
  | .text s => some (.text s)
  | .comment s => some (.comment s)
def removeTagsF (names : List String) : HtmlForest → HtmlForest
  | .nil => .nil
  | .cons h t =>
      match removeTagsN names h with
      | none => removeTagsF names t
      | some h2 => .cons h2 (removeTagsF names t)
end

mutual
def removeCommentsN : HtmlNode → Option HtmlNode
  | .elem n a cs => some (.elem n a (removeCommentsF cs))
  | .text s => some (.text s)
  | .comment _ => none
def removeCommentsF : HtmlForest → HtmlForest
  | .nil => .nil
  | .cons h t =>
      match removeCommentsN h with
      | none => removeCommentsF t
      | some h2 => .cons h2 (removeCommentsF t)
end

/-- Pass 1: `_remove_noise_tags` (noise tags, then HTML comments). -/
def remove_noise_tags (t : HtmlForest) : HtmlForest :=
  removeCommentsF (removeTagsF NOISE_TAGS t)

/-- Pass 2: `_remove_structural_noise`. -/
def remove_structural_noise (t : HtmlForest) : HtmlForest :=
  removeTagsF STRUCTURAL_NOISE_TAGS t

mutual
def stripAttrsN : HtmlNode → HtmlNode
  | .elem n a cs => .elem n (a.filter (fun kv => KEEP_ATTRS.contains kv.1)) (stripAttrsF cs)
  | .text s => .text s
  | .comment s => .comment s
def stripAttrsF : HtmlForest → HtmlForest
  | .nil => .nil
  | .cons h t => .cons (stripAttrsN h) (stripAttrsF t)
end

/-- Pass 3: `_strip_attributes`. -/
def strip_attributes (t : HtmlForest) : HtmlForest := stripAttrsF t

mutual
/-- `tag.get_text()`: concatenation of the descendant strings.  (Comments
are removed in pass 1, before any `get_text` call in the source.) -/
def getTextN : HtmlNode → List Char
  | .elem _ _ cs => getTextF cs
  | .text s => s
  | .comment _ => []
def getTextF : HtmlForest → List Char
  | .nil => []
  | .cons h t => getTextN h ++ getTextF t
end

/-- `not tag.get_text(strip=True)`: every descendant string is whitespace. -/
def textIsBlank (cs : HtmlForest) : Bool := (getTextF cs).all isWsChar

mutual
/-- One `find_all` sweep of `_remove_empty_elements`: drop every
non-preserved element with no non-whitespace text. -/
def removeEmptyN : HtmlNode → Option HtmlNode
  | .elem n a cs =>
      if PRESERVE_EMPTY.contains n then some (.elem n a (removeEmptyF cs))
      else if textIsBlank cs then none
      else some (.elem n a (removeEmptyF cs))
  | .text s => some (.text s)
  | .comment s => some (.comment s)
def removeEmptyF : HtmlForest → HtmlForest
  | .nil => .nil
  | .cons h t =>
      match removeEmptyN h with
      | none => removeEmptyF t
      | some h2 => .cons h2 (removeEmptyF t)
end

/-- Pass 4: `_remove_empty_elements` runs up to 3 sweeps (stopping early
when a sweep changes nothing); applying the sweep three times is the same
function. -/
def remove_empty_elements (t : HtmlForest) : HtmlForest :=
  removeEmptyF (removeEmptyF (removeEmptyF t))

mutual
/-- `re.sub(r"[ \t]+", " ", s)`: normal state. -/
def p1A : List Char → List Char
  | [] => []
  | c :: cs => if isSpaceTab c then p1B cs else c :: p1A cs
/-- Inside a `[ \t]` run (one pending `' '`). -/
def p1B : List Char → List Char
  | [] => [' ']
  | c :: cs => if isSpaceTab c then p1B cs else ' ' :: c :: p1A cs
end

def isWsNoNl (c : Char) : Bool := isWsChar c && !(c = '\n')

mutual
/-- `re.sub(r"\n\s*\n+", "\n", s)`: normal state. -/
def p2A : List Char → List Char
  | [] => []
  | c :: cs => if c = '\n' then p2B cs [] else c :: p2A cs
/-- Saw a `\n`; `acc` holds non-newline whitespace read since the last
newline (not yet part of any match, emitted verbatim if no further
newline arrives). -/
def p2B : List Char → List Char → List Char
  | [], acc => '\n' :: acc.reverse
  | c :: cs, acc =>
      if c = '\n' then p2B cs []
      else if isWsNoNl c then p2B cs (c :: acc)
      else '\n' :: (acc.reverse ++ c :: p2A cs)
end

mutual
/-- `re.sub(r">\s+<", "> <", s)`: normal state. -/
def p3A : List Char → List Char
  | [] => []
  | c :: cs => if c = '>' then '>' :: p3B cs else c :: p3A cs
/-- Just emitted `>`. -/
def p3B : List Char → List Char
  | [] => []
  | c :: cs =>
      if isWsChar c then p3C cs [c]
      else if c = '>' then '>' :: p3B cs
      else c :: p3A cs
/-- Inside the whitespace run after a `>`; `acc` holds it (reversed). -/
def p3C : List Char → List Char → List Char
  | [], acc => acc.reverse
  | c :: cs, acc =>
      if isWsChar c then p3C cs (c :: acc)
      else if c = '<' then ' ' :: '<' :: p3A cs
      else acc.reverse ++ (if c = '>' then '>' :: p3B cs else c :: p3A cs)
end

/-- `str.strip()`. -/
def stripChars (s : List Char) : List Char :=
  ((s.dropWhile isWsChar).reverse.dropWhile isWsChar).reverse

/-- Pass 5: `_collapse_whitespace`. -/
def collapse_whitespace (s : List Char) : List Char := stripChars (p3A (p2A (p1A s)))

/-! #### `PRICING_KEYWORDS` regex -/

def lcList (s : List Char) : List Char := s.map Char.toLower

def matchLitCI : List Char → List Char → Bool
  | [], _ => true
  | _ :: _, [] => false
  | p :: ps, c :: cs => if Char.toLower c = p then matchLitCI ps cs else false

/-- One literal alternative (stored pattern is lowercase; `re.IGNORECASE`). -/
def litAlt (pat : String) (s : List Char) : Option Nat :=
  if matchLitCI (lcList pat.toList) s then some pat.toList.length else none

/-- The alternative `plan[s ]`. -/
def matchPlanClass (s : List Char) : Option Nat :=
  if matchLitCI (lcList ("plan").toList) s then
    match s.drop 4 with
    | c :: _ => if Char.toLower c = 's' ∨ c = ' ' then some 5 else none
    | [] => none
  else none

/-- The alternative `contact.?sales` (greedy `.?`: one char, else none). -/
def matchContactSales (s : List Char) : Option Nat :=
  if matchLitCI (lcList ("contact").toList) s then
    let rest := s.drop 7
    match rest with
    | c :: cs =>
        if ¬ (c = '\n') ∧ matchLitCI (lcList ("sales").toList) cs then some 13
        else if matchLitCI (lcList ("sales").toList) rest then some 12
        else none
    | [] => none
  else none

def firstSome : List (List Char → Option Nat) → List Char → Option Nat
  | [], _ => none
  | f :: fs, s =>
      match f s with
      | some n => some n
      | none => firstSome fs s

/-- The alternatives of `PRICING_KEYWORDS`, in source order. -/
def pricingAlts : List (List Char → Option Nat) :=
  [litAlt ("$"), litAlt ("€"), litAlt ("£"), litAlt ("¥"), litAlt ("₹"), litAlt ("R$"),
   litAlt ("/month"), litAlt ("/year"), litAlt ("/mo"), litAlt ("/yr"),
   litAlt ("per month"), litAlt ("per year"), litAlt ("annually"),
   litAlt ("pricing"), matchPlanClass, litAlt ("subscribe"), litAlt ("subscription"),
   litAlt ("premium"), litAlt ("pro "), litAlt ("enterprise"),
   litAlt ("free tier"), litAlt ("free plan"), matchContactSales,
   litAlt ("get started"), litAlt ("upgrade"), litAlt ("billing")]

/-- Leftmost-alternative match attempt at the head of `s`. -/
def reMatchAt (s : List Char) : Option Nat := firstSome pricingAlts s

/-- `PRICING_KEYWORDS.search(s) is not None`. -/
def reSearch : List Char → Bool
  | [] => false
  | c :: cs => (reMatchAt (c :: cs)).isSome || reSearch cs

/-- `len(PRICING_KEYWORDS.findall(s))`: non-overlapping scan; every
alternative matches at least one character, so fuel `s.length` suffices. -/
def reCountF : Nat → List Char → Nat
  | 0, _ => 0
  | _, [] => 0
  | fuel + 1, c :: cs =>
      match reMatchAt (c :: cs) with
      | some L => 1 + reCountF fuel ((c :: cs).drop L)
      | none => reCountF fuel cs

def reCount (s : List Char) : Nat := reCountF s.length s

/-! #### Truncation -/

mutual
/-- `find_all(pred)` on one node: preorder (document order). -/
def findAllN (p : String → Bool) : HtmlNode → List HtmlNode
  | .elem n a cs => (if p n then [.elem n a cs] else []) ++ findAllF p cs
  | .text _ => []
  | .comment _ => []
def findAllF (p : String → Bool) : HtmlForest → List HtmlNode
  | .nil => []
  | .cons h t => findAllN p h ++ findAllF p t
end

/-- `soup.find("main")`. -/
def findMainTag (t : HtmlForest) : Option HtmlNode :=
  (findAllF (fun n => n == "main") t).head?

def sectionPred (n : String) : Bool :=
  n == "section" || n == "div" || n == "main" || n == "article"

/-- Python string comparison (code-point lexicographic `<`). -/
def listLtCh : List Char → List Char → Bool
  | _, [] => false
  | [], _ :: _ => true
  | a :: xs, b :: ys =>
      if a.val < b.val then true else if b.val < a.val then false else listLtCh xs ys

/-- Python tuple comparison `x > y` on `(density, section_html)`. -/
def scoreGt (x y : ℚ × List Char) : Bool :=
  if y.1 < x.1 then true else if x.1 < y.1 then false else listLtCh y.2 x.2

/-- `scored.sort(reverse=True)`: stable descending sort (insertion sort is
stable; ties keep original order, as Timsort does). -/
def insertDesc (x : ℚ × List Char) : List (ℚ × List Char) → List (ℚ × List Char)
  | [] => [x]
  | y :: ys => if scoreGt y x then y :: insertDesc x ys else x :: y :: ys

def sortDesc (l : List (ℚ × List Char)) : List (ℚ × List Char) := l.foldr insertDesc []

/-- The greedy accumulation over the scored sections (`break` on the first
section that would overflow the budget). -/
def pickSections : List (ℚ × List Char) → Nat → List (List Char)
  | [], _ => []
  | x :: rest, total =>
      if total + x.2.length > MAX_OUTPUT_CHARS then []
      else x.2 :: pickSections rest (total + x.2.length)

/-- `" ".join(parts)`. -/
def joinSpace : List (List Char) → List Char
  | [] => []
  | [s] => s
  | s :: rest => s ++ ' ' :: joinSpace rest

/-- Strategies 2 and 3 of `_truncate`: pricing-keyword sections, else the
hard cut `cleaned[:MAX_OUTPUT_CHARS]`. -/
def truncateSections (soup : HtmlForest) (cleaned : List Char) : List Char :=
  let sections := findAllF sectionPred soup
  let pricing_sections := sections.filterMap (fun sec =>
    if reSearch (getTextN sec) then some (serializeNode sec) else none)
  if pricing_sections.isEmpty then cleaned.take MAX_OUTPUT_CHARS
  else
    let candidate := collapse_whitespace (joinSpace pricing_sections)
    if candidate.length ≤ MAX_OUTPUT_CHARS then candidate
    else
      let scored := pricing_sections.map (fun sh =>
        ((reCount sh : ℚ) / (max sh.length 1 : ℚ), sh))
      let result_parts := pickSections (sortDesc scored) 0
      if result_parts.isEmpty then cleaned.take MAX_OUTPUT_CHARS
      else collapse_whitespace (joinSpace result_parts)

/-- `_truncate(soup, cleaned)`: strategy 1 (the `<main>` tag) first. -/
def truncate_oversized (soup : HtmlForest) (cleaned : List Char) : List Char :=
  match findMainTag soup with
  | some m =>
      let candidate := collapse_whitespace (serializeNode m)
      if candidate.length ≤ MAX_OUTPUT_CHARS then candidate
      else truncateSections soup cleaned
  | none => truncateSections soup cleaned

/-- Passes 1–4 in source order. -/
def cleanPasses (t0 : HtmlForest) : HtmlForest :=
  remove_empty_elements (strip_attributes (remove_structural_noise (remove_noise_tags t0)))

/-- `clean_html` on an already-parsed document. -/
def cleanDoc (t0 : HtmlForest) : List Char :=
  let t4 := cleanPasses t0
  let result := collapse_whitespace (serializeForest t4)
  if result.length > MAX_OUTPUT_CHARS then truncate_oversized t4 result else result

/-- `clean_html(raw_html)`. -/
def clean_html (x : List Char) : List Char := cleanDoc (parseHtml x)

/-! ### Tiered extraction cascade (`src/v2/extractor.py`)

Tier 1 (JSON-LD) and tier 3 (OCR) are stubs in the source: the cascade
logs and skips them unconditionally.  The live tiers call external
services, modelled by `CascadeEnv`: `llm content` is the result of
`extract_pricing(content, company, country, input_type="html")` for the
fixed company/country of the call, `vision path` the result of
`extract_pricing_from_screenshot(path, company, country)`, and
`screenshotExists` is `Path(screenshot_path).exists()`.
-/

def Confidence.value : Confidence → String
  | .high => "high"
  | .medium => "medium"
  | .low => "low"

def planHasPrice (p : PricingPlan) : Bool :=
  p.monthly_price.isSome || p.annual_price.isSome
    || p.annual_monthly_equivalent.isSome || p.is_free_tier || p.is_contact_sales

def planHasNumericPrice (p : PricingPlan) : Bool :=
  p.monthly_price.isSome || p.annual_price.isSome || p.annual_monthly_equivalent.isSome

/-- `_is_good(result)`: the quality gate. -/
def is_good (result : PricingExtraction) : Bool :=
  if result.extraction_confidence = .low then false
  else if result.plans.isEmpty then false
  else if !(result.plans.any planHasPrice) then false
  else
    let paid_plans := result.plans.filter (fun p => !p.is_free_tier && !p.is_contact_sales)
    if !paid_plans.isEmpty then
      if paid_plans.any planHasNumericPrice then true else false
    else true

structure CascadeEnv where
  llm : List Char → PricingExtraction
  screenshotExists : Bool
  vision : String → PricingExtraction

structure ExtractionResult where
  tier : String
  extraction : PricingExtraction
  company : String
  country : String
deriving DecidableEq, Repr

/-- `_try_tier_2(html, company, country)`. -/
def try_tier_2 (env : CascadeEnv) (html : List Char) : Option PricingExtraction :=
  if html.isEmpty || (stripChars html).isEmpty then none
  else
    let cleaned := clean_html html
    if (stripChars cleaned).isEmpty then none
    else
      let result := env.llm cleaned
      if is_good result then some result else none

/-- `_try_tier_4(screenshot_path, company, country)`: no quality gate. -/
def try_tier_4 (env : CascadeEnv) (screenshot_path : String) : Option PricingExtraction :=
  if screenshot_path.isEmpty then none
  else if !env.screenshotExists then none
  else some (env.vision screenshot_path)

/-- The extraction built on the all-tiers-exhausted fallthrough path. -/
def exhaustedExtraction : PricingExtraction :=
  { currency_code := "UNKNOWN", currency_symbol := "?", plans := [],
    extraction_confidence := .low,
    extraction_notes := some ("All extraction tiers exhausted without result") }

/-- `extract_with_fallback(html=..., screenshot_path=..., company=..., country=...)`. -/
def extract_with_fallback (env : CascadeEnv) (html : List Char) (screenshot_path : String)
    (company country : String) : ExtractionResult :=
  match try_tier_2 env html with
  | some t2 => ⟨"tier_2", t2, company, country⟩
  | none =>
      match try_tier_4 env screenshot_path with
      | some t4 => ⟨"tier_4", t4, company, country⟩
      | none => ⟨"none", exhaustedExtraction, company, country⟩

/-! ### Orchestrator (`src/v2/orchestrator.py`)

`scrape_one` wraps steps 1–11 (URL resolution, proxy lookup, the browser
phase, and the extraction cascade) in one `try/except Exception`; the
fallible body is modelled by `runItem : SiteConfig → String → Except
String ScrapeSuccess`.  Everything before the `try` is plain field access
on the registry config.  The result dict's `elapsed_seconds` (wall-clock
time) is outside the model; on the error path the source may have set
`url` before failing, which the model keeps at its initial `""` — neither
is relevant to any claim here.
-/

structure SiteConfig where
  id : String
  display_name : String
  countries : List String
deriving DecidableEq, Repr

structure ScrapeSuccess where
  url : String
  screenshot_path : String
  extraction : ExtractionResult
deriving DecidableEq, Repr

structure ResultRecord where
  site_id : String
  display_name : String
  country : String
  url : String
  status : String
  tier : String
  confidence : String
  plan_count : Nat
  error : Option String
  screenshot_path : String
  extraction : Option PricingExtraction
deriving DecidableEq, Repr

/-- `scrape_one(site_config, country)`. -/
def scrape_one (runItem : SiteConfig → String → Except String ScrapeSuccess)
    (site_config : SiteConfig) (country : String) : ResultRecord :=
  let base : ResultRecord :=
    { site_id := site_config.id, display_name := site_config.display_name,
      country := country, url := "", status := "error", tier := "none",
      confidence := "low", plan_count := 0, error := none,
      screenshot_path := "", extraction := none }
  match runItem site_config country with
  | .ok s =>
      { base with
        url := s.url,
        screenshot_path := s.screenshot_path,
        status := "success",
        tier := s.extraction.tier,
        confidence := s.extraction.extraction.extraction_confidence.value,
        plan_count := s.extraction.extraction.plans.length,
        extraction := some s.extraction.extraction }
  | .error e => { base with error := some e }

/-- `str.lower()` (ASCII; country codes here are ASCII). -/
def pyLower (s : String) : String := String.mk (s.toList.map Char.toLower)

/-- The `(site, country)` work-item expansion of `run_scrape`: cartesian
product filtered to each site's supported country list. -/
def expandPairs (sites : List SiteConfig) (countries : List String) :
    List (SiteConfig × String) :=
  sites.flatMap (fun site => countries.filterMap (fun c =>
    if site.countries.contains (pyLower c) then some (site, pyLower c) else none))

/-- `_run_sequential`. -/
def run_sequential (runItem : SiteConfig → String → Except String ScrapeSuccess)
    (pairs : List (SiteConfig × String)) : List ResultRecord :=
  pairs.map (fun sc => scrape_one runItem sc.1 sc.2)

/-- `_run_concurrent`: results are appended in `as_completed` order, an
arbitrary permutation `order` of the submitted pairs.  (The
`future.result()` re-raise branch is unreachable here: `scrape_one`
catches every exception of its fallible body.) -/
def run_concurrent (runItem : SiteConfig → String → Except String ScrapeSuccess)
    (order : List (SiteConfig × String)) : List ResultRecord :=
  order.map (fun sc => scrape_one runItem sc.1 sc.2)

/-- `run_scrape(sites, countries, concurrent, max_workers)`. -/
def run_scrape (runItem : SiteConfig → String → Except String ScrapeSuccess)
    (sites : List SiteConfig) (countries : List String) (concurrent : Bool)
    (order : List (SiteConfig × String)) : List ResultRecord :=
  let pairs := expandPairs sites countries
  if concurrent && pairs.length > 1 then run_concurrent runItem order
  else run_sequential runItem pairs

/-! ### Concrete instances used by the claim theorems and witnesses -/

/-- A nominally paid plan carrying a numeric monthly price. -/
def samplePaidPlan : PricingPlan :=
  { plan_name := "Pro", monthly_price := some (999/100), annual_price := none,
    annual_monthly_equivalent := none, billing_periods_available := [.monthly],
    is_free_tier := false, is_contact_sales := false, target_audience := .individual,
    key_features := [], notes := none }

/-- A free-tier plan (no prices). -/
def sampleFreePlan : PricingPlan :=
  { plan_name := "Free", monthly_price := none, annual_price := none,
    annual_monthly_equivalent := none, billing_periods_available := [.monthly],
    is_free_tier := true, is_contact_sales := false, target_audience := .individual,
    key_features := [], notes := none }

/-- A nominally paid plan with no numeric price (client-side rendered). -/
def samplePaidNoPricePlan : PricingPlan :=
  { plan_name := "Business", monthly_price := none, annual_price := none,
    annual_monthly_equivalent := none, billing_periods_available := [.monthly],
    is_free_tier := false, is_contact_sales := false, target_audience := .team,
    key_features := [], notes := none }

/-- A non-empty, low-confidence tier-2 extraction: it fails the quality
gate although it carries a plan with a numeric price. -/
def lowConfRichExtraction : PricingExtraction :=
  { currency_code := "USD", currency_symbol := "$", plans := [samplePaidPlan],
    extraction_confidence := .low,
    extraction_notes := some ("Prices partially rendered client-side") }

/-- A gate-passing extraction. -/
def sampleGoodExtraction : PricingExtraction :=
  { currency_code := "USD", currency_symbol := "$", plans := [samplePaidPlan],
    extraction_confidence := .medium, extraction_notes := none }

/-- A low-confidence empty vision result. -/
def sampleLowEmptyExtraction : PricingExtraction :=
  { currency_code := "UNKNOWN", currency_symbol := "?", plans := [],
    extraction_confidence := .low, extraction_notes := some ("screenshot unreadable") }

/-- Cascade environment for the C1 counterexample: the tier-2 LLM call
returns `lowConfRichExtraction`; no screenshot exists. -/
def c1Env : CascadeEnv :=
  { llm := fun _ => lowConfRichExtraction, screenshotExists := false,
    vision := fun _ => lowConfRichExtraction }

def c1Html : List Char := ("$").toList

/-- Cascade environment whose vision tier returns a low-confidence empty
result (C9: accepted anyway). -/
def c9Env : CascadeEnv :=
  { llm := fun _ => sampleLowEmptyExtraction, screenshotExists := true,
    vision := fun _ => sampleLowEmptyExtraction }

/-- Cascade environment whose tier-2 LLM call degrades to a salvage
result (C10). -/
def c10Env : CascadeEnv :=
  { llm := fun _ => error_result ("Pydantic validation failed: plans: field required") none,
    screenshotExists := false, vision := fun _ => sampleLowEmptyExtraction }

/-- A schema-valid plan payload that violates the free-tier price-null
invariant: `is_free_tier` is true AND `monthly_price` is 9.99. -/
def c3FreeTierPayload : Json :=
  .obj [("plan_name", .str ("Free")), ("monthly_price", .num (999/100)),
        ("billing_periods_available", .arr [.str ("monthly")]),
        ("is_free_tier", .bool true), ("is_contact_sales", .bool false),
        ("target_audience", .str ("individual")), ("key_features", .arr [])]

/-- The plan the schema admits for `c3FreeTierPayload`. -/
def c3FreeTierPlan : PricingPlan :=
  { plan_name := "Free", monthly_price := some (999/100), annual_price := none,
    annual_monthly_equivalent := none, billing_periods_available := [.monthly],
    is_free_tier := true, is_contact_sales := false, target_audience := .individual,
    key_features := [], notes := none }

/-- A contact-sales payload with a non-null annual price. -/
def c3ContactSalesPayload : Json :=
  .obj [("plan_name", .str ("Enterprise")), ("annual_price", .num 499),
        ("billing_periods_available", .arr [.str ("annual")]),
        ("is_free_tier", .bool false), ("is_contact_sales", .bool true),
        ("target_audience", .str ("enterprise")), ("key_features", .arr [])]

def c3ContactSalesPlan : PricingPlan :=
  { plan_name := "Enterprise", monthly_price := none, annual_price := some 499,
    annual_monthly_equivalent := none, billing_periods_available := [.annual],
    is_free_tier := false, is_contact_sales := true, target_audience := .enterprise,
    key_features := [], notes := none }

/-- `(PricingPlan.model_validate j).isOk` as a Bool. -/
def planValidates (j : Json) : Bool :=
  match PricingPlan.model_validate j with
  | .ok _ => true
  | .error _ => false

/-- Two individually valid plan entries inside an otherwise malformed
payload (C8): the payload lacks `extraction_confidence`, so full
validation fails, but salvage must keep both plans. -/
def c8PlanJsonA : Json :=
  .obj [("plan_name", .str ("Basic")), ("monthly_price", .num (599/100)),
        ("billing_periods_available", .arr [.str ("monthly")]),
        ("is_free_tier", .bool false), ("is_contact_sales", .bool false),
        ("target_audience", .str ("individual")), ("key_features", .arr [])]

def c8PlanJsonB : Json :=
  .obj [("plan_name", .str ("Premium")), ("monthly_price", .num (1299/100)),
        ("billing_periods_available", .arr [.str ("monthly"), .str ("annual")]),
        ("is_free_tier", .bool false), ("is_contact_sales", .bool false),
        ("target_audience", .str ("family")), ("key_features", .arr [.str ("4K")])]

def c8MalformedKvs : List (String × Json) :=
  [("currency_code", .str ("EUR")), ("currency_symbol", .str ("€")),
   ("plans", .arr [c8PlanJsonA, c8PlanJsonB])]

/-- Orchestrator fixtures (C5): one site succeeding, one failing. -/
def siteAlpha : SiteConfig :=
  { id := "spotify", display_name := "Spotify", countries := ["us", "uk"] }

def siteBeta : SiteConfig :=
  { id := "netflix", display_name := "Netflix", countries := ["us"] }

/-- Item executor whose netflix item always raises. -/
def c5Run (site : SiteConfig) (country : String) : Except String ScrapeSuccess :=
  if site.id = "netflix" then Except.error ("Page.goto: Timeout 45000ms exceeded")
  else Except.ok
    { url := "https://www.spotify.com/" ++ country ++ "/premium",
      screenshot_path := "screenshots/spotify.png",
      extraction := ⟨"tier_2", sampleGoodExtraction, site.display_name, country⟩ }

/-- C6 counterexample input: 1000 sibling pricing `<div>`s (20 chars of
well-formed markup each) plus two trailing characters. -/
def divBlock : List Char := ("<div>$abcdefgh</div>").toList

def c6Input : List Char := (List.replicate 1000 divBlock).flatten ++ ("zz").toList

/-- C7 counterexample input: 19995 text characters followed by a 13-char
keyword-free div; the hard truncation cuts right after `<div>`. -/
def c7Input : List Char := List.replicate 19995 'a' ++ ("<div>bb</div>").toList


/-- The parsed node of one `divBlock`. -/
def divNodeA : HtmlNode :=
  .elem ("div") [] (.cons (.text (("$abcdefgh").toList)) .nil)

/-- Document forest of `n` pricing divs followed by the trailing text `zz`
(the parse of `c6Input` when `n = 1000`). -/
def repDivForest (n : Nat) : HtmlForest :=
  HtmlForest.ofList (List.replicate n divNodeA ++ [.text (("zz").toList)])

/-- Tail of the space-joined serialisation of `n+1` div blocks, viewed
after its leading `<`. -/
def divChainTail : Nat → List Char
  | 0 => ("div>$abcdefgh</div>").toList
  | n + 1 => ("div>$abcdefgh</div>").toList ++ ' ' :: '<' :: divChainTail n

/-- The parsed keyword-free div of `c7Input`. -/
def divBBNode : HtmlNode := .elem ("div") [] (.cons (.text (("bb").toList)) .nil)

/-- The empty div left by re-parsing the hard-truncated `c7Input` output. -/
def emptyDivNode : HtmlNode := .elem ("div") [] .nil

/-! ## Claim theorems -/

/-- C2: the quality gate `_is_good` returns true for a result exactly when
the confidence is not low, the plan list is non-empty, at least one plan
carries a concrete price signal (a numeric price field, or
`is_free_tier = true`, or `is_contact_sales = true`), and, if any plan is
neither free-tier nor contact-sales, at least one such paid plan has a
numeric price; in particular every result with low confidence fails the
gate regardless of plan contents. -/
theorem C2_quality_gate (r : PricingExtraction) :
    (is_good r = true ↔
      (r.extraction_confidence ≠ Confidence.low ∧ r.plans ≠ [] ∧
        (∃ p ∈ r.plans, p.monthly_price ≠ none ∨ p.annual_price ≠ none ∨
          p.annual_monthly_equivalent ≠ none ∨ p.is_free_tier = true ∨
          p.is_contact_sales = true) ∧
        ((∃ p ∈ r.plans, p.is_free_tier = false ∧ p.is_contact_sales = false) →
          (∃ p ∈ r.plans, (p.is_free_tier = false ∧ p.is_contact_sales = false) ∧
            (p.monthly_price ≠ none ∨ p.annual_price ≠ none ∨
              p.annual_monthly_equivalent ≠ none))))) ∧
    (r.extraction_confidence = Confidence.low → is_good r = false) := by
  have hsig : (r.plans.any planHasPrice = true) ↔
      (∃ p ∈ r.plans, p.monthly_price ≠ none ∨ p.annual_price ≠ none ∨
        p.annual_monthly_equivalent ≠ none ∨ p.is_free_tier = true ∨
        p.is_contact_sales = true) := by
    simp [planHasPrice, List.any_eq_true, Option.isSome_iff_ne_none, or_assoc]
  have hnumiff : ((r.plans.filter (fun p => !p.is_free_tier && !p.is_contact_sales)).any
      planHasNumericPrice = true) ↔
      (∃ p ∈ r.plans, (p.is_free_tier = false ∧ p.is_contact_sales = false) ∧
        (p.monthly_price ≠ none ∨ p.annual_price ≠ none ∨
          p.annual_monthly_equivalent ≠ none)) := by
    simp [List.any_eq_true, List.mem_filter, planHasNumericPrice,
      Option.isSome_iff_ne_none, or_assoc, and_assoc]
  have hfiliff : ((r.plans.filter (fun p => !p.is_free_tier && !p.is_contact_sales)).isEmpty
      = true) ↔ (¬ ∃ p ∈ r.plans, p.is_free_tier = false ∧ p.is_contact_sales = false) := by
    simp [List.isEmpty_iff, List.filter_eq_nil_iff]
  constructor
  · simp only [is_good]
    split_ifs with h1 h2 h3 h4 h5
    · simp [h1]
    · simp only [List.isEmpty_iff] at h2
      simp [h2]
    · simp only [Bool.not_eq_true'] at h3
      simp only [false_iff]
      rintro ⟨-, -, hs, -⟩
      exact absurd (hsig.mpr hs) (by simp [h3])
    · have hany : r.plans.any planHasPrice = true := by revert h3; simp
      constructor
      · intro _
        refine ⟨h1, by simpa [List.isEmpty_iff] using h2, hsig.mp hany, ?_⟩
        intro _
        exact hnumiff.mp h5
      · intro _; rfl
    · simp only [false_iff]
      rintro ⟨-, -, -, himp⟩
      have hfil : (r.plans.filter (fun p => !p.is_free_tier && !p.is_contact_sales)).isEmpty
          = false := by revert h4; simp
      have hex : ∃ p ∈ r.plans, p.is_free_tier = false ∧ p.is_contact_sales = false := by
        by_contra hc
        rw [← hfiliff] at hc
        rw [hfil] at hc
        cases hc
      exact absurd (hnumiff.mpr (himp hex)) (by simp [h5])
    · have hany : r.plans.any planHasPrice = true := by revert h3; simp
      have hfil : (r.plans.filter (fun p => !p.is_free_tier && !p.is_contact_sales)).isEmpty
          = true := by revert h4; simp
      constructor
      · intro _
        refine ⟨h1, by simpa [List.isEmpty_iff] using h2, hsig.mp hany, ?_⟩
        intro hex
        exact absurd hex (hfiliff.mp hfil)
      · intro _; rfl
  · intro h
    simp [is_good, h]

/-- Witness for C2: the gate-monotonicity part applied at a concrete
low-confidence result. -/
theorem C2_gate_witness : is_good lowConfRichExtraction = false :=
  (C2_quality_gate lowConfRichExtraction).2 rfl

/-- C3 counterexample: the schema admits a `PricingPlan` whose
`is_free_tier` is true while `monthly_price` is 9.99 — validation imposes
no cross-field invariant, refuting the claim for plans admitted by the
schema. -/
theorem C3_counterexample :
    PricingPlan.model_validate c3FreeTierPayload = Except.ok c3FreeTierPlan ∧
    c3FreeTierPlan.is_free_tier = true ∧
    c3FreeTierPlan.monthly_price = some (999/100) :=
  ⟨rfl, rfl, rfl⟩

/-- C3 amended: the system's schema does NOT enforce the price-null
invariant — validation admits plans with `is_free_tier = true` (resp.
`is_contact_sales = true`) and non-null price fields; the null-price
convention lives only in the field descriptions sent to the extraction
service. -/
theorem C3_amended :
    (∃ j p, PricingPlan.model_validate j = Except.ok p ∧ p.is_free_tier = true ∧
      p.monthly_price ≠ none) ∧
    (∃ j p, PricingPlan.model_validate j = Except.ok p ∧ p.is_contact_sales = true ∧
      p.annual_price ≠ none) :=
  ⟨⟨c3FreeTierPayload, c3FreeTierPlan, rfl, rfl, by simp [c3FreeTierPlan]⟩,
   ⟨c3ContactSalesPayload, c3ContactSalesPlan, rfl, rfl, by simp [c3ContactSalesPlan]⟩⟩

/-- C4: for every outcome of the external structured-extraction call
(success, API error of any kind — unreachable/rate-limited —, a response
with no tool block, or a schema-invalid payload), `extract_pricing` is a
total function into `PricingExtraction` (it never raises), and every
failure outcome yields `extraction_confidence = low` with an explanatory
`extraction_notes` message. -/
theorem C4_never_raises (o : ServiceOutcome) (h : outcomeFails o = true) :
    (extract_pricing o).extraction_confidence = Confidence.low ∧
    ∃ m, (extract_pricing o).extraction_notes = some m := by
  cases o with
  | apiError e => exact ⟨rfl, ⟨_, rfl⟩⟩
  | response blocks =>
      unfold outcomeFails at h
      cases hf : findToolUse blocks with
      | none =>
          simp only [extract_pricing, parse_response, hf]
          exact ⟨rfl, ⟨_, rfl⟩⟩
      | some input =>
          simp only [hf] at h
          cases hv : PricingExtraction.model_validate input with
          | ok p =>
              rw [hv] at h
              exact Bool.noConfusion h
          | error e =>
              simp only [extract_pricing, parse_response, hf, hv]
              exact ⟨rfl, ⟨_, rfl⟩⟩

/-- Witness for C4 at a concrete API-error outcome. -/
theorem C4_witness :
    outcomeFails (ServiceOutcome.apiError ("Connection error")) = true ∧
    (extract_pricing (ServiceOutcome.apiError ("Connection error"))).extraction_confidence =
      Confidence.low ∧
    ∃ m, (extract_pricing (ServiceOutcome.apiError ("Connection error"))).extraction_notes =
      some m :=
  ⟨rfl, C4_never_raises (ServiceOutcome.apiError ("Connection error")) rfl⟩

/-- Salvage keeps every individually valid plan entry. -/
theorem salvage_filterMap_length (items : List Json)
    (h : ∀ j ∈ items, planValidates j = true) :
    (items.filterMap (fun j =>
      match PricingPlan.model_validate j with
      | .ok p => some p
      | .error _ => none)).length = items.length := by
  induction items with
  | nil => rfl
  | cons j rest ih =>
      have hj := h j (List.mem_cons_self j rest)
      unfold planValidates at hj
      cases hv : PricingPlan.model_validate j with
      | ok p =>
          simp only [List.filterMap_cons, hv, List.length_cons]
          rw [ih (fun a ha => h a (List.mem_cons_of_mem _ ha))]
      | error e => rw [hv] at hj; cases hj

/-- C8: when a malformed payload is a dict containing a `plans` list all
of whose N entries individually validate, the salvaged result of
`_error_result` contains all N plans, and string-valued `currency_code` /
`currency_symbol` entries are preserved. -/
theorem C8_salvage_keeps_plans (msg : String) (kvs : List (String × Json))
    (items : List Json) (hk : kvs.isEmpty = false)
    (hp : Json.lookup ("plans") kvs = some (.arr items))
    (hv : ∀ j ∈ items, planValidates j = true) :
    ((error_result msg (some (.obj kvs))).plans.length = items.length) ∧
    (∀ s, Json.lookup ("currency_code") kvs = some (.str s) →
      (error_result msg (some (.obj kvs))).currency_code = s) ∧
    (∀ s, Json.lookup ("currency_symbol") kvs = some (.str s) →
      (error_result msg (some (.obj kvs))).currency_symbol = s) := by
  refine ⟨?_, ?_, ?_⟩
  · simp only [error_result, hk, hp, Bool.false_eq_true, if_false]
    exact salvage_filterMap_length items hv
  · intro s hs
    simp [error_result, hk, hs]
  · intro s hs
    simp [error_result, hk, hs]

/-- Witness for C8 on a concrete malformed payload with two valid plans
and currency fields. -/
theorem C8_witness :
    (error_result ("Pydantic validation failed") (some (.obj c8MalformedKvs))).plans.length
      = 2 ∧
    (error_result ("Pydantic validation failed") (some (.obj c8MalformedKvs))).currency_code
      = "EUR" ∧
    (error_result ("Pydantic validation failed") (some (.obj c8MalformedKvs))).currency_symbol
      = "€" := by
  have h := C8_salvage_keeps_plans ("Pydantic validation failed") c8MalformedKvs
    [c8PlanJsonA, c8PlanJsonB] rfl rfl (by decide)
  exact ⟨h.1, h.2.1 ("EUR") rfl, h.2.2 ("€") rfl⟩

/-- C9: when the cascade falls through to the image tier (tier 2 produced
nothing) and a screenshot path naming an existing file is supplied,
`extract_with_fallback` returns the vision result tagged `tier_4` with no
quality gate applied — whatever the vision tier returns is accepted. -/
theorem C9_tier4_ungated (env : CascadeEnv) (html : List Char) (sp : String)
    (company country : String) (h2 : try_tier_2 env html = none)
    (hsp : sp.isEmpty = false) (hex : env.screenshotExists = true) :
    extract_with_fallback env html sp company country =
      ⟨"tier_4", env.vision sp, company, country⟩ := by
  simp [extract_with_fallback, try_tier_4, h2, hsp, hex]

/-- Witness for C9: a low-confidence, zero-plan vision result is still
accepted and tagged `tier_4`. -/
theorem C9_witness :
    try_tier_2 c9Env [] = none ∧
    c9Env.vision ("screenshots/canva_us.png") = sampleLowEmptyExtraction ∧
    sampleLowEmptyExtraction.extraction_confidence = Confidence.low ∧
    sampleLowEmptyExtraction.plans = [] ∧
    extract_with_fallback c9Env [] ("screenshots/canva_us.png") ("Canva") ("us") =
      ⟨"tier_4", sampleLowEmptyExtraction, "Canva", "us"⟩ := by
  refine ⟨rfl, rfl, rfl, rfl, ?_⟩
  exact C9_tier4_ungated c9Env [] ("screenshots/canva_us.png") ("Canva") ("us") rfl rfl rfl

/-- An error/salvage result can never pass the quality gate. -/
theorem is_good_error_result (msg : String) (raw : Option Json) :
    is_good (error_result msg raw) = false :=
  rfl

/-- C10: every extraction built by the error/salvage path has low
confidence and carries the failure message in its notes, regardless of
how many plans were salvaged; consequently it never passes the quality
gate, and a tier-2 LLM call that degrades to a salvage result always
makes `_try_tier_2` fall through (return `None`). -/
theorem C10_salvage_never_resolves (msg : String) (raw : Option Json) :
    (error_result msg raw).extraction_confidence = Confidence.low ∧
    (error_result msg raw).extraction_notes = some msg ∧
    is_good (error_result msg raw) = false ∧
    (∀ (env : CascadeEnv) (html : List Char),
      env.llm (clean_html html) = error_result msg raw →
      try_tier_2 env html = none) := by
  refine ⟨rfl, rfl, rfl, ?_⟩
  intro env html h
  cases hb1 : html.isEmpty || (stripChars html).isEmpty with
  | true => simp only [try_tier_2, hb1, if_true]
  | false =>
      cases hb2 : (stripChars (clean_html html)).isEmpty with
      | true => simp only [try_tier_2, hb1, hb2, Bool.false_eq_true, if_false, if_true]
      | false =>
          simp only [try_tier_2, hb1, hb2, Bool.false_eq_true, if_false, h,
            is_good_error_result]

/-- Witness for C10 at a concrete salvage result. -/
theorem C10_witness :
    c10Env.llm (clean_html c1Html) =
      error_result ("Pydantic validation failed: plans: field required") none ∧
    try_tier_2 c10Env c1Html = none :=
  ⟨rfl, (C10_salvage_never_resolves ("Pydantic validation failed: plans: field required")
      none).2.2.2 c10Env c1Html rfl⟩

/-- C1 counterexample: with HTML whose tier-2 extraction is attempted and
produces a non-empty low-confidence raw result which fails the gate, and
no screenshot, the cascade does NOT return the last attempted tier's raw
result — it returns the canonical empty result tagged "none", silently
discarding the low-confidence-but-non-empty tier-2 result. -/
theorem C1_counterexample :
    ((stripChars c1Html).isEmpty = false) ∧
    ((stripChars (clean_html c1Html)).isEmpty = false) ∧
    c1Env.llm (clean_html c1Html) = lowConfRichExtraction ∧
    is_good lowConfRichExtraction = false ∧
    lowConfRichExtraction.plans ≠ [] ∧
    try_tier_4 c1Env ("") = none ∧
    extract_with_fallback c1Env c1Html ("") ("Spotify") ("us") =
      ⟨"none", exhaustedExtraction, "Spotify", "us"⟩ ∧
    exhaustedExtraction ≠ lowConfRichExtraction := by
  refine ⟨rfl, rfl, rfl, rfl, by simp [lowConfRichExtraction], rfl, rfl, ?_⟩
  intro hcontra
  have : exhaustedExtraction.plans = lowConfRichExtraction.plans := by rw [hcontra]
  simp [exhaustedExtraction, lowConfRichExtraction] at this

/-- C1 amended: on exhausting all tiers without a pass,
`extract_with_fallback` always returns the canonical empty low-confidence
result tagged "none"; a gate-failing tier result is discarded inside
`_try_tier_2` and never returned. -/
theorem C1_amended_behavior (env : CascadeEnv) (html : List Char) (sp : String)
    (company country : String) (h2 : try_tier_2 env html = none)
    (h4 : try_tier_4 env sp = none) :
    extract_with_fallback env html sp company country =
      ⟨"none", exhaustedExtraction, company, country⟩ := by
  unfold extract_with_fallback
  rw [h2, h4]

/-- Witness for the amended C1 at a concrete environment where tier 2 was
attempted and failed the gate. -/
theorem C1_amended_witness :
    try_tier_2 c1Env c1Html = none ∧ try_tier_4 c1Env ("") = none ∧
    extract_with_fallback c1Env c1Html ("") ("Spotify") ("us") =
      ⟨"none", exhaustedExtraction, "Spotify", "us"⟩ :=
  ⟨rfl, rfl, C1_amended_behavior c1Env c1Html ("") ("Spotify") ("us") rfl rfl⟩

/-- C5: for every item executor, every supported (site, country) pair
expanded by `run_scrape` yields exactly one result record in the returned
batch (the batch is, in both sequential and concurrent modes, a
permutation of one `scrape_one` record per pair), and an item whose
execution raises is converted into a status="error" record identifying
that item alone — sibling items are unaffected. -/
theorem C5_isolation (runItem : SiteConfig → String → Except String ScrapeSuccess)
    (sites : List SiteConfig) (countries : List String) (concurrent : Bool)
    (order : List (SiteConfig × String))
    (h : order.Perm (expandPairs sites countries)) :
    (run_scrape runItem sites countries concurrent order).Perm
      ((expandPairs sites countries).map (fun sc => scrape_one runItem sc.1 sc.2)) ∧
    (∀ site c e, runItem site c = Except.error e →
      scrape_one runItem site c =
        { site_id := site.id, display_name := site.display_name, country := c, url := "",
          status := "error", tier := "none", confidence := "low", plan_count := 0,
          error := some e, screenshot_path := "", extraction := none }) := by
  constructor
  · simp only [run_scrape, run_concurrent, run_sequential]
    split_ifs with hc
    · exact h.map _
    · exact List.Perm.refl _
  · intro site c e he
    simp [scrape_one, he]

/-- Witness for C5: two sites, one country; the netflix item always
raises; the spotify item still succeeds and both appear in the batch. -/
theorem C5_witness :
    expandPairs [siteAlpha, siteBeta] ["us"] = [(siteAlpha, "us"), (siteBeta, "us")] ∧
    c5Run siteBeta ("us") = Except.error ("Page.goto: Timeout 45000ms exceeded") ∧
    (run_scrape c5Run [siteAlpha, siteBeta] ["us"] true
        ((expandPairs [siteAlpha, siteBeta] ["us"]).reverse)).Perm
      ((expandPairs [siteAlpha, siteBeta] ["us"]).map
        (fun sc => scrape_one c5Run sc.1 sc.2)) ∧
    (scrape_one c5Run siteBeta ("us")).status = "error" ∧
    (scrape_one c5Run siteBeta ("us")).error =
      some ("Page.goto: Timeout 45000ms exceeded") ∧
    (scrape_one c5Run siteAlpha ("us")).status = "success" := by
  have h := C5_isolation c5Run [siteAlpha, siteBeta] ["us"] true
    ((expandPairs [siteAlpha, siteBeta] ["us"]).reverse) (List.reverse_perm _)
  refine ⟨by decide, rfl, h.1, ?_, ?_, by decide⟩
  · rw [h.2 siteBeta ("us") ("Page.goto: Timeout 45000ms exceeded") rfl]
  · rw [h.2 siteBeta ("us") ("Page.goto: Timeout 45000ms exceeded") rfl]

/-! ## Content-reducer lemmas and the C6/C7 theorems -/

theorem p1_length (s : List Char) : (p1A s).length ≤ s.length ∧ (p1B s).length ≤ s.length + 1 := by
  induction s with
  | nil => exact ⟨Nat.le_refl _, Nat.le_refl _⟩
  | cons c cs ih =>
      refine ⟨?_, ?_⟩
      · show (if isSpaceTab c then p1B cs else c :: p1A cs).length ≤ cs.length + 1
        split_ifs
        · exact ih.2
        · have := ih.1
          simp only [List.length_cons]
          omega
      · show (if isSpaceTab c then p1B cs else ' ' :: c :: p1A cs).length ≤ cs.length + 1 + 1
        split_ifs
        · have := ih.2; omega
        · have := ih.1
          simp only [List.length_cons]
          omega

theorem p2_length (s : List Char) : (p2A s).length ≤ s.length ∧
    ∀ acc, (p2B s acc).length ≤ s.length + acc.length + 1 := by
  induction s with
  | nil =>
      refine ⟨Nat.le_refl _, ?_⟩
      intro acc
      simp [p2B]
  | cons c cs ih =>
      refine ⟨?_, ?_⟩
      · show (if c = '\n' then p2B cs [] else c :: p2A cs).length ≤ cs.length + 1
        split_ifs
        · have := ih.2 []
          simpa using this
        · have := ih.1
          simp only [List.length_cons]
          omega
      · intro acc
        show (if c = '\n' then p2B cs [] else if isWsNoNl c = true then p2B cs (c :: acc)
          else '\n' :: (acc.reverse ++ c :: p2A cs)).length ≤ cs.length + 1 + acc.length + 1
        split_ifs
        · have := ih.2 []; simp at this; omega
        · have := ih.2 (c :: acc); simp only [List.length_cons] at this ⊢; omega
        · have := ih.1
          simp only [List.length_cons, List.length_append, List.length_reverse]
          omega

theorem p3_length (s : List Char) : (p3A s).length ≤ s.length ∧ (p3B s).length ≤ s.length ∧
    ∀ acc, acc ≠ [] → (p3C s acc).length ≤ s.length + acc.length := by
  induction s with
  | nil =>
      refine ⟨Nat.le_refl _, Nat.le_refl _, ?_⟩
      intro acc _
      simp [p3C]
  | cons c cs ih =>
      obtain ⟨ihA, ihB, ihC⟩ := ih
      refine ⟨?_, ?_, ?_⟩
      · show (if c = '>' then '>' :: p3B cs else c :: p3A cs).length ≤ cs.length + 1
        split_ifs <;> simp only [List.length_cons] <;> omega
      · show (if isWsChar c then p3C cs [c] else if c = '>' then '>' :: p3B cs
          else c :: p3A cs).length ≤ cs.length + 1
        split_ifs
        · have := ihC [c] (by simp)
          simpa using this
        · simp only [List.length_cons]; omega
        · simp only [List.length_cons]; omega
      · intro acc hacc
        have hlen : 1 ≤ acc.length := by
          cases acc with
          | nil => exact absurd rfl hacc
          | cons a as => simp
        show (if isWsChar c then p3C cs (c :: acc) else if c = '<' then ' ' :: '<' :: p3A cs
          else acc.reverse ++ (if c = '>' then '>' :: p3B cs else c :: p3A cs)).length
          ≤ cs.length + 1 + acc.length
        split_ifs
        · have := ihC (c :: acc) (by simp)
          simp only [List.length_cons] at this ⊢
          omega
        · simp only [List.length_cons]; omega
        · simp only [List.length_append, List.length_reverse, List.length_cons]; omega
        · simp only [List.length_append, List.length_reverse, List.length_cons]; omega

theorem stripChars_length_le (s : List Char) : (stripChars s).length ≤ s.length := by
  unfold stripChars
  have h1 := (List.dropWhile_sublist (p := isWsChar) (l := s)).length_le
  have h2 := (List.dropWhile_sublist (p := isWsChar)
    (l := (s.dropWhile isWsChar).reverse)).length_le
  simp only [List.length_reverse] at *
  omega

theorem collapse_length_le (s : List Char) : (collapse_whitespace s).length ≤ s.length := by
  unfold collapse_whitespace
  have h3 := (p3_length (p2A (p1A s))).1
  have h2 := (p2_length (p1A s)).1
  have h1 := (p1_length s).1
  have hs := stripChars_length_le (p3A (p2A (p1A s)))
  omega

theorem joinSpace_length : ∀ (parts : List (List Char)), parts ≠ [] →
    (joinSpace parts).length + 1 = (parts.map List.length).sum + parts.length := by
  intro parts
  induction parts with
  | nil => intro h; exact absurd rfl h
  | cons s rest ih =>
      intro _
      cases rest with
      | nil => simp [joinSpace]
      | cons t rs =>
          have := ih (by simp)
          show (s ++ ' ' :: joinSpace (t :: rs)).length + 1 = _
          simp only [List.length_append, List.length_cons, List.map_cons, List.sum_cons] at *
          omega

theorem count_le_sum : ∀ (parts : List (List Char)), (∀ s ∈ parts, s ≠ []) →
    parts.length ≤ (parts.map List.length).sum := by
  intro parts
  induction parts with
  | nil => intro _; simp
  | cons s rest ih =>
      intro h
      have hs : 1 ≤ s.length := by
        have := h s (List.mem_cons_self s rest)
        cases s with
        | nil => exact absurd rfl this
        | cons a as => simp
      have := ih (fun t ht => h t (List.mem_cons_of_mem _ ht))
      simp only [List.length_cons, List.map_cons, List.sum_cons]
      omega

theorem pickSections_sum : ∀ (l : List (ℚ × List Char)) (total : Nat),
    total ≤ MAX_OUTPUT_CHARS →
    ((pickSections l total).map List.length).sum + total ≤ MAX_OUTPUT_CHARS := by
  intro l
  induction l with
  | nil => intro total h; simpa [pickSections] using h
  | cons x rest ih =>
      intro total h
      show ((if total + x.2.length > MAX_OUTPUT_CHARS then ([] : List (List Char))
        else x.2 :: pickSections rest (total + x.2.length)).map List.length).sum + total
        ≤ MAX_OUTPUT_CHARS
      split_ifs with hg
      · simpa using h
      · push_neg at hg
        have := ih (total + x.2.length) hg
        simp only [List.map_cons, List.sum_cons]
        omega

theorem pickSections_mem : ∀ (l : List (ℚ × List Char)) (total : Nat) (s : List Char),
    s ∈ pickSections l total → ∃ d, (d, s) ∈ l := by
  intro l
  induction l with
  | nil => intro total s h; simp [pickSections] at h
  | cons x rest ih =>
      intro total s h
      rw [show pickSections (x :: rest) total = if total + x.2.length > MAX_OUTPUT_CHARS
        then [] else x.2 :: pickSections rest (total + x.2.length) from rfl] at h
      split_ifs at h
      · simp at h
      · rcases List.mem_cons.mp h with h1 | h2
        · exact ⟨x.1, by simp [h1]⟩
        · obtain ⟨d, hd⟩ := ih _ s h2
          exact ⟨d, List.mem_cons_of_mem _ hd⟩

theorem insertDesc_mem : ∀ (x : ℚ × List Char) (l : List (ℚ × List Char)) (y : ℚ × List Char),
    y ∈ insertDesc x l → y = x ∨ y ∈ l := by
  intro x l
  induction l with
  | nil => intro y h; simp [insertDesc] at h; exact Or.inl h
  | cons z zs ih =>
      intro y h
      rw [show insertDesc x (z :: zs) = if scoreGt z x then z :: insertDesc x zs
        else x :: z :: zs from rfl] at h
      split_ifs at h
      · rcases List.mem_cons.mp h with h1 | h2
        · exact Or.inr (by simp [h1])
        · rcases ih y h2 with h3 | h4
          · exact Or.inl h3
          · exact Or.inr (List.mem_cons_of_mem _ h4)
      · rcases List.mem_cons.mp h with h1 | h2
        · exact Or.inl h1
        · exact Or.inr h2

theorem sortDesc_mem : ∀ (l : List (ℚ × List Char)) (y : ℚ × List Char),
    y ∈ sortDesc l → y ∈ l := by
  intro l
  induction l with
  | nil => intro y h; simp [sortDesc] at h
  | cons x xs ih =>
      intro y h
      rcases insertDesc_mem x (sortDesc xs) y h with h1 | h2
      · simp [h1]
      · exact List.mem_cons_of_mem _ (ih y h2)

theorem escapeText_ne_nil : ∀ (s : List Char), s ≠ [] → escapeText s ≠ [] := by
  intro s h
  cases s with
  | nil => exact absurd rfl h
  | cons c cs =>
      show escapeChar c ++ escapeText cs ≠ []
      have : escapeChar c ≠ [] := by
        unfold escapeChar
        split_ifs <;> simp
      simp [List.append_eq_nil]
      intro hc
      exact absurd hc this

theorem serializeNode_ne_nil_of_search (sec : HtmlNode)
    (h : reSearch (getTextN sec) = true) : serializeNode sec ≠ [] := by
  cases sec with
  | elem n a cs =>
      show (if voidTags.contains n then _ else _) ≠ []
      split_ifs <;> simp
  | text s =>
      cases s with
      | nil => exact absurd h (by simp [getTextN, reSearch])
      | cons c cs => exact escapeText_ne_nil _ (by simp)
  | comment s => simp [serializeNode]

theorem scored_branch_le (f : List Char → ℚ × List Char) (hf : ∀ sh, (f sh).2 = sh)
    (ps : List (List Char)) (hne : ∀ s ∈ ps, s ≠ [])
    (hparts : pickSections (sortDesc (ps.map f)) 0 ≠ []) :
    (collapse_whitespace (joinSpace (pickSections (sortDesc (ps.map f)) 0))).length
      ≤ 2 * MAX_OUTPUT_CHARS - 1 := by
  have hsum : (((pickSections (sortDesc (ps.map f)) 0).map List.length).sum)
      ≤ MAX_OUTPUT_CHARS := by
    have := pickSections_sum (sortDesc (ps.map f)) 0 (by simp [MAX_OUTPUT_CHARS])
    omega
  have hel : ∀ s ∈ pickSections (sortDesc (ps.map f)) 0, s ≠ [] := by
    intro s hs
    obtain ⟨d, hd⟩ := pickSections_mem _ _ _ hs
    have hd2 := sortDesc_mem _ _ hd
    obtain ⟨sh, hsh, heq⟩ := List.mem_map.mp hd2
    have hs2 : s = sh := by
      have := congrArg Prod.snd heq
      simp [hf sh] at this
      exact this.symm
    rw [hs2]
    exact hne sh hsh
  have hcount := count_le_sum _ hel
  have hjoin := joinSpace_length _ hparts
  have hcol := collapse_length_le (joinSpace (pickSections (sortDesc (ps.map f)) 0))
  simp only [MAX_OUTPUT_CHARS] at *
  omega

theorem truncateSections_length_le (soup : HtmlForest) (cleaned : List Char) :
    (truncateSections soup cleaned).length ≤ 2 * MAX_OUTPUT_CHARS - 1 := by
  have htake : (cleaned.take MAX_OUTPUT_CHARS).length ≤ 2 * MAX_OUTPUT_CHARS - 1 := by
    have := List.length_take_le MAX_OUTPUT_CHARS cleaned
    simp only [MAX_OUTPUT_CHARS] at *
    omega
  have hps : ∀ s ∈ (findAllF sectionPred soup).filterMap (fun sec =>
      if reSearch (getTextN sec) then some (serializeNode sec) else none), s ≠ [] := by
    intro s hs
    obtain ⟨sec, hsec, hg⟩ := List.mem_filterMap.mp hs
    by_cases hr : reSearch (getTextN sec) = true
    · rw [if_pos hr] at hg
      have := Option.some.inj hg
      rw [← this]
      exact serializeNode_ne_nil_of_search sec hr
    · rw [if_neg hr] at hg; cases hg
  simp only [truncateSections]
  split_ifs with h1 h2 h3
  · exact htake
  · simp only [MAX_OUTPUT_CHARS] at *; omega
  · exact htake
  · refine scored_branch_le _ (fun _ => rfl) _ hps ?_
    intro hnil
    rw [← List.isEmpty_iff] at hnil
    exact h3 hnil

theorem truncate_length_le (soup : HtmlForest) (cleaned : List Char) :
    (truncate_oversized soup cleaned).length ≤ 2 * MAX_OUTPUT_CHARS - 1 := by
  unfold truncate_oversized
  rcases hm : findMainTag soup with _ | m <;> simp only []
  · exact truncateSections_length_le soup cleaned
  · split_ifs with h1
    · simp only [MAX_OUTPUT_CHARS] at *; omega
    · exact truncateSections_length_le soup cleaned

theorem cleanDoc_length_le (t : HtmlForest) :
    (cleanDoc t).length ≤ 2 * MAX_OUTPUT_CHARS - 1 := by
  simp only [cleanDoc]
  split_ifs with h
  · exact truncate_length_le _ _
  · simp only [MAX_OUTPUT_CHARS] at *; omega

theorem repDivForest_succ (n : Nat) : repDivForest (n + 1) = .cons divNodeA (repDivForest n) := by
  simp [repDivForest, List.replicate_succ, HtmlForest.ofList]

theorem tok_divBlock (r : List Char) :
    tokenizeAux (divBlock ++ r) false [] =
      .topen ("div") [] false :: .ttext (("$abcdefgh").toList) :: .tclose ("div")
        :: tokenizeAux r false [] := rfl

theorem build_divBlock (ts : List HtmlTok) (acc : List HtmlNode) :
    buildAux (.topen ("div") [] false :: .ttext (("$abcdefgh").toList) :: .tclose ("div") :: ts)
      [] acc = buildAux ts [] (divNodeA :: acc) := rfl

theorem c6_parse_aux : ∀ (n : Nat) (acc : List HtmlNode),
    buildAux (tokenizeAux ((List.replicate n divBlock).flatten ++ ("zz").toList) false []) []
      acc = acc.reverse ++ (List.replicate n divNodeA ++ [.text (("zz").toList)]) := by
  intro n
  induction n with
  | zero =>
      intro acc
      have h1 : buildAux (tokenizeAux ((List.replicate 0 divBlock).flatten ++ ("zz").toList)
          false []) [] acc = (HtmlNode.text (("zz").toList) :: acc).reverse := rfl
      rw [h1, List.reverse_cons]
      simp
  | succ n ih =>
      intro acc
      have h1 : (List.replicate (n + 1) divBlock).flatten ++ ("zz").toList =
          divBlock ++ ((List.replicate n divBlock).flatten ++ ("zz").toList) := by
        simp [List.replicate_succ]
      rw [h1, tok_divBlock, build_divBlock, ih]
      simp [List.replicate_succ]

theorem c6_parse : parseHtml c6Input = repDivForest 1000 := by
  have h := c6_parse_aux 1000 []
  simp only [List.reverse_nil, List.nil_append] at h
  unfold parseHtml c6Input repDivForest
  rw [h]

theorem removeTagsF_noise_cons_div (T : HtmlForest) :
    removeTagsF NOISE_TAGS (.cons divNodeA T) = .cons divNodeA (removeTagsF NOISE_TAGS T) := rfl

theorem removeTagsF_struct_cons_div (T : HtmlForest) :
    removeTagsF STRUCTURAL_NOISE_TAGS (.cons divNodeA T)
      = .cons divNodeA (removeTagsF STRUCTURAL_NOISE_TAGS T) := rfl

theorem removeCommentsF_cons_div (T : HtmlForest) :
    removeCommentsF (.cons divNodeA T) = .cons divNodeA (removeCommentsF T) := rfl

theorem stripAttrsF_cons_div (T : HtmlForest) :
    stripAttrsF (.cons divNodeA T) = .cons divNodeA (stripAttrsF T) := rfl

theorem removeEmptyF_cons_div (T : HtmlForest) :
    removeEmptyF (.cons divNodeA T) = .cons divNodeA (removeEmptyF T) := rfl

theorem cleanPasses_cons_div (T : HtmlForest) :
    cleanPasses (.cons divNodeA T) = .cons divNodeA (cleanPasses T) := by
  unfold cleanPasses remove_noise_tags remove_structural_noise strip_attributes
    remove_empty_elements
  rw [removeTagsF_noise_cons_div, removeCommentsF_cons_div, removeTagsF_struct_cons_div,
    stripAttrsF_cons_div, removeEmptyF_cons_div, removeEmptyF_cons_div, removeEmptyF_cons_div]

theorem cleanPasses_repDiv : ∀ n, cleanPasses (repDivForest n) = repDivForest n := by
  intro n
  induction n with
  | zero => rfl
  | succ n ih => rw [repDivForest_succ, cleanPasses_cons_div, ih]

theorem serialize_repDiv : ∀ n, serializeForest (repDivForest n)
    = (List.replicate n divBlock).flatten ++ ("zz").toList := by
  intro n
  induction n with
  | zero => rfl
  | succ n ih =>
      rw [repDivForest_succ]
      show serializeNode divNodeA ++ serializeForest (repDivForest n) = _
      rw [show serializeNode divNodeA = divBlock from rfl, ih]
      simp [List.replicate_succ]

theorem isSpaceTab_false_of_noWs (c : Char) (h : isWsChar c = false) : isSpaceTab c = false := by
  unfold isWsChar at h
  unfold isSpaceTab
  simp only [Bool.or_eq_false_iff] at h ⊢
  exact ⟨h.1.1.1.1.1, h.1.1.1.1.2⟩

theorem ne_nl_of_noWs (c : Char) (h : isWsChar c = false) : ¬ c = '\n' := by
  unfold isWsChar at h
  simp only [Bool.or_eq_false_iff, decide_eq_false_iff_not] at h
  exact h.1.1.1.2

theorem p1A_id_noWs : ∀ s : List Char, (∀ c ∈ s, isWsChar c = false) → p1A s = s := by
  intro s
  induction s with
  | nil => intro _; rfl
  | cons c cs ih =>
      intro h
      have hc := isSpaceTab_false_of_noWs c (h c (List.mem_cons_self c cs))
      show (if isSpaceTab c then p1B cs else c :: p1A cs) = c :: cs
      rw [hc]
      simp only [Bool.false_eq_true, if_false]
      rw [ih (fun a ha => h a (List.mem_cons_of_mem _ ha))]

theorem p2A_id_noNl : ∀ s : List Char, (∀ c ∈ s, ¬ c = '\n') → p2A s = s := by
  intro s
  induction s with
  | nil => intro _; rfl
  | cons c cs ih =>
      intro h
      have hc := h c (List.mem_cons_self c cs)
      show (if c = '\n' then p2B cs [] else c :: p2A cs) = c :: cs
      rw [if_neg hc]
      rw [ih (fun a ha => h a (List.mem_cons_of_mem _ ha))]

theorem p3_id_noWs : ∀ s : List Char, (∀ c ∈ s, isWsChar c = false) → p3A s = s ∧ p3B s = s := by
  intro s
  induction s with
  | nil => intro _; exact ⟨rfl, rfl⟩
  | cons c cs ih =>
      intro h
      have hc := h c (List.mem_cons_self c cs)
      have ihr := ih (fun a ha => h a (List.mem_cons_of_mem _ ha))
      constructor
      · show (if c = '>' then '>' :: p3B cs else c :: p3A cs) = c :: cs
        split_ifs with hgt
        · rw [ihr.2, hgt]
        · rw [ihr.1]
      · show (if isWsChar c then p3C cs [c] else if c = '>' then '>' :: p3B cs
          else c :: p3A cs) = c :: cs
        rw [hc]
        simp only [Bool.false_eq_true, if_false]
        split_ifs with hgt
        · rw [ihr.2, hgt]
        · rw [ihr.1]

theorem dropWhile_id_noWs (s : List Char) (h : ∀ c ∈ s, isWsChar c = false) :
    s.dropWhile isWsChar = s := by
  cases s with
  | nil => rfl
  | cons c cs =>
      have hc := h c (List.mem_cons_self c cs)
      simp [List.dropWhile_cons, hc]

theorem stripChars_id_noWs (s : List Char) (h : ∀ c ∈ s, isWsChar c = false) :
    stripChars s = s := by
  unfold stripChars
  rw [dropWhile_id_noWs s h]
  rw [dropWhile_id_noWs s.reverse (fun c hc => h c (List.mem_reverse.mp hc))]
  exact List.reverse_reverse s

theorem collapse_id_noWs (s : List Char) (h : ∀ c ∈ s, isWsChar c = false) :
    collapse_whitespace s = s := by
  unfold collapse_whitespace
  rw [p1A_id_noWs s h, p2A_id_noNl s (fun c hc => ne_nl_of_noWs c (h c hc)),
    (p3_id_noWs s h).1, stripChars_id_noWs s h]

theorem c6Input_noWs : ∀ c ∈ c6Input, isWsChar c = false := by
  intro c hc
  simp only [c6Input, List.mem_append, List.mem_flatten, List.mem_replicate] at hc
  rcases hc with ⟨l, ⟨-, rfl⟩, hcl⟩ | hzz
  · revert hcl
    revert c
    decide
  · revert hzz
    revert c
    decide

theorem flatten_replicate_length : ∀ (n : Nat) (l : List Char),
    ((List.replicate n l).flatten).length = n * l.length := by
  intro n l
  induction n with
  | zero => simp
  | succ n ih =>
      rw [List.replicate_succ]
      simp only [List.flatten_cons, List.length_append, ih]
      ring

theorem c6Input_length : c6Input.length = 20002 := by
  have hdb : divBlock.length = 20 := rfl
  simp only [c6Input, List.length_append, flatten_replicate_length, hdb]
  norm_num

theorem findAll_main_repDiv : ∀ n, findAllF (fun nm => nm == "main") (repDivForest n) = [] := by
  intro n
  induction n with
  | zero => rfl
  | succ n ih =>
      rw [repDivForest_succ]
      show findAllN (fun nm => nm == "main") divNodeA
        ++ findAllF (fun nm => nm == "main") (repDivForest n) = []
      rw [show findAllN (fun nm => nm == "main") divNodeA = [] from rfl, ih]
      rfl

theorem findMainTag_repDiv (n : Nat) : findMainTag (repDivForest n) = none := by
  unfold findMainTag
  rw [findAll_main_repDiv]
  rfl

theorem findAll_sections_repDiv : ∀ n,
    findAllF sectionPred (repDivForest n) = List.replicate n divNodeA := by
  intro n
  induction n with
  | zero => rfl
  | succ n ih =>
      rw [repDivForest_succ]
      show findAllN sectionPred divNodeA ++ findAllF sectionPred (repDivForest n) = _
      rw [show findAllN sectionPred divNodeA = [divNodeA] from rfl, ih]
      simp [List.replicate_succ]

theorem pricing_sections_repDiv : ∀ n, (List.replicate n divNodeA).filterMap (fun sec =>
    if reSearch (getTextN sec) then some (serializeNode sec) else none)
    = List.replicate n divBlock := by
  intro n
  induction n with
  | zero => rfl
  | succ n ih =>
      rw [List.replicate_succ, List.filterMap_cons]
      rw [show (if reSearch (getTextN divNodeA) then some (serializeNode divNodeA) else none)
        = some divBlock from rfl]
      rw [ih, List.replicate_succ]

theorem joinSpace_repDiv : ∀ n, joinSpace (List.replicate (n + 1) divBlock)
    = '<' :: divChainTail n := by
  intro n
  induction n with
  | zero => rfl
  | succ n ih =>
      rw [List.replicate_succ]
      have h2 : List.replicate (n + 1) divBlock
          = divBlock :: List.replicate n divBlock := List.replicate_succ divBlock (n)
      rw [h2]
      show divBlock ++ ' ' :: joinSpace (divBlock :: List.replicate n divBlock) = _
      rw [← h2, ih]
      rfl

theorem divChainTail_length : ∀ n, (divChainTail n).length = 19 + 21 * n := by
  intro n
  induction n with
  | zero => rfl
  | succ n ih =>
      show (("div>$abcdefgh</div>").toList ++ ' ' :: '<' :: divChainTail n).length = _
      simp only [List.length_append, List.length_cons, ih]
      norm_num
      ring

theorem p1A_divChain : ∀ n, p1A (divChainTail n) = divChainTail n := by
  intro n
  induction n with
  | zero => rfl
  | succ n ih =>
      have h : p1A (divChainTail (n + 1))
          = ("div>$abcdefgh</div>").toList ++ ' ' :: '<' :: p1A (divChainTail n) := rfl
      rw [h, ih]
      rfl

theorem p2A_divChain : ∀ n, p2A (divChainTail n) = divChainTail n := by
  intro n
  induction n with
  | zero => rfl
  | succ n ih =>
      have h : p2A (divChainTail (n + 1))
          = ("div>$abcdefgh</div>").toList ++ ' ' :: '<' :: p2A (divChainTail n) := rfl
      rw [h, ih]
      rfl

theorem p3A_divChain : ∀ n, p3A (divChainTail n) = divChainTail n := by
  intro n
  induction n with
  | zero => rfl
  | succ n ih =>
      have h : p3A (divChainTail (n + 1))
          = ("div>$abcdefgh</div>").toList ++ ' ' :: '<' :: p3A (divChainTail n) := rfl
      rw [h, ih]
      rfl

theorem divChainTail_ends_gt : ∀ n, ∃ r, divChainTail n = r ++ ['>'] := by
  intro n
  induction n with
  | zero => exact ⟨("div>$abcdefgh</div").toList, rfl⟩
  | succ n ih =>
      obtain ⟨r, hr⟩ := ih
      refine ⟨("div>$abcdefgh</div>").toList ++ ' ' :: '<' :: r, ?_⟩
      show ("div>$abcdefgh</div>").toList ++ ' ' :: '<' :: divChainTail n = _
      rw [hr]
      simp

theorem strip_divChain : ∀ n, stripChars ('<' :: divChainTail n) = '<' :: divChainTail n := by
  intro n
  obtain ⟨r, hr⟩ := divChainTail_ends_gt n
  unfold stripChars
  have h1 : ('<' :: divChainTail n).dropWhile isWsChar = '<' :: divChainTail n := by
    simp [List.dropWhile_cons, isWsChar]
  rw [h1]
  have h2 : ('<' :: divChainTail n).reverse = '>' :: (r.reverse ++ ['<']) := by
    rw [hr]
    simp
  rw [h2]
  have h3 : ('>' :: (r.reverse ++ ['<'])).dropWhile isWsChar = '>' :: (r.reverse ++ ['<']) := by
    simp [List.dropWhile_cons, isWsChar]
  rw [h3, ← h2, List.reverse_reverse]

theorem collapse_divChain (n : Nat) :
    collapse_whitespace ('<' :: divChainTail n) = '<' :: divChainTail n := by
  unfold collapse_whitespace
  have h1 : p1A ('<' :: divChainTail n) = '<' :: p1A (divChainTail n) := rfl
  rw [h1, p1A_divChain]
  have h2 : p2A ('<' :: divChainTail n) = '<' :: p2A (divChainTail n) := rfl
  rw [h2, p2A_divChain]
  have h3 : p3A ('<' :: divChainTail n) = '<' :: p3A (divChainTail n) := rfl
  rw [h3, p3A_divChain]
  exact strip_divChain n

theorem listLtCh_self : ∀ s : List Char, listLtCh s s = false := by
  intro s
  induction s with
  | nil => rfl
  | cons c cs ih =>
      show (if c.val < c.val then true else if c.val < c.val then false else listLtCh cs cs)
        = false
      simp [ih]

theorem scoreGt_self (q : ℚ × List Char) : scoreGt q q = false := by
  unfold scoreGt
  simp [listLtCh_self]

theorem insertDesc_replicate (q : ℚ × List Char) : ∀ k,
    insertDesc q (List.replicate k q) = List.replicate (k + 1) q := by
  intro k
  cases k with
  | zero => rfl
  | succ k =>
      rw [List.replicate_succ]
      show (if scoreGt q q then q :: insertDesc q (List.replicate k q)
        else q :: q :: List.replicate k q) = _
      rw [scoreGt_self]
      simp [List.replicate_succ]

theorem sortDesc_replicate (q : ℚ × List Char) : ∀ n,
    sortDesc (List.replicate n q) = List.replicate n q := by
  intro n
  induction n with
  | zero => rfl
  | succ n ih =>
      rw [List.replicate_succ]
      show insertDesc q (sortDesc (List.replicate n q)) = _
      rw [ih, insertDesc_replicate]
      exact (List.replicate_succ q n).symm

theorem pickSections_replicate (q : ℚ × List Char) (hq : q.2.length = 20) : ∀ (k total : Nat),
    total + 20 * k ≤ 20000 →
    pickSections (List.replicate k q) total = List.replicate k q.2 := by
  intro k
  induction k with
  | zero => intro total _; rfl
  | succ k ih =>
      intro total h
      rw [List.replicate_succ]
      show (if total + q.2.length > MAX_OUTPUT_CHARS then []
        else q.2 :: pickSections (List.replicate k q) (total + q.2.length)) = _
      rw [hq]
      rw [if_neg (by simp only [MAX_OUTPUT_CHARS]; omega)]
      rw [ih (total + 20) (by omega)]
      rw [List.replicate_succ]

theorem divChain999_len : ('<' :: divChainTail 999).length = 20999 := by
  rw [List.length_cons, divChainTail_length]

theorem clean_html_c6 : clean_html c6Input = '<' :: divChainTail 999 := by
  unfold clean_html
  rw [c6_parse]
  simp only [cleanDoc]
  rw [cleanPasses_repDiv, serialize_repDiv]
  rw [show (List.replicate 1000 divBlock).flatten ++ ("zz").toList = c6Input from rfl]
  rw [collapse_id_noWs c6Input c6Input_noWs, c6Input_length]
  rw [if_pos (show 20002 > MAX_OUTPUT_CHARS by norm_num [MAX_OUTPUT_CHARS])]
  unfold truncate_oversized
  rw [findMainTag_repDiv]
  show truncateSections (repDivForest 1000) c6Input = '<' :: divChainTail 999
  simp only [truncateSections]
  rw [findAll_sections_repDiv, pricing_sections_repDiv]
  rw [if_neg (show ¬ (List.replicate 1000 divBlock).isEmpty = true by simp)]
  rw [show (1000 : Nat) = 999 + 1 from rfl]
  rw [joinSpace_repDiv 999]
  rw [collapse_divChain 999]
  rw [divChain999_len]
  rw [if_neg (show ¬ (20999 ≤ MAX_OUTPUT_CHARS) by norm_num [MAX_OUTPUT_CHARS])]
  rw [List.map_replicate]
  rw [sortDesc_replicate]
  rw [pickSections_replicate ((fun sh => ((reCount sh : ℚ) / (max sh.length 1 : ℚ), sh))
    divBlock) rfl (999 + 1) 0 (by norm_num)]
  rw [if_neg (show ¬ (List.replicate (999 + 1)
    ((fun sh => ((reCount sh : ℚ) / (max sh.length 1 : ℚ), sh)) divBlock).2).isEmpty
    = true by simp)]
  show collapse_whitespace (joinSpace (List.replicate (999 + 1) divBlock))
    = '<' :: divChainTail 999
  rw [joinSpace_repDiv 999, collapse_divChain 999]

/-- C6 counterexample: for the 20,002-character input of 1000 well-formed
pricing divs plus two trailing characters, the reducer's keyword-section
concatenation returns 20,999 characters — exceeding both the 20,000-char
budget and the input length, refuting
`len(clean_html(x)) <= max(20000, len(x))`. -/
theorem C6_counterexample :
    ¬ ((clean_html c6Input).length ≤ max MAX_OUTPUT_CHARS c6Input.length) := by
  rw [clean_html_c6, divChain999_len, c6Input_length]
  norm_num [MAX_OUTPUT_CHARS]

/-- C6 amended: the reducer never grows its input beyond twice the size
budget: for all inputs, `len(clean_html(x)) <= max(2*20000 - 1, len(x))`
(indeed the output never exceeds 39,999 characters; the keyword-section
branch can exceed the 20,000 budget only by its inserted join
separators). -/
theorem C6_amended_size_bound (x : List Char) :
    (clean_html x).length ≤ max (2 * MAX_OUTPUT_CHARS - 1) x.length :=
  le_trans (cleanDoc_length_le (parseHtml x)) (le_max_left _ _)

theorem tok_aRun : ∀ (n : Nat) (r acc : List Char),
    tokenizeAux (List.replicate n 'a' ++ r) false acc
      = tokenizeAux r false (List.replicate n 'a' ++ acc) := by
  intro n
  induction n with
  | zero => intro r acc; simp
  | succ n ih =>
      intro r acc
      rw [List.replicate_succ]
      show tokenizeAux (List.replicate n 'a' ++ r) false ('a' :: acc) = _
      rw [ih]
      have h2 : List.replicate n 'a' ++ 'a' :: acc
          = 'a' :: List.replicate n 'a' ++ acc := by
        calc List.replicate n 'a' ++ 'a' :: acc
            = (List.replicate n 'a' ++ ['a']) ++ acc := by simp
          _ = List.replicate (n + 1) 'a' ++ acc := by rw [← List.replicate_succ']
          _ = 'a' :: List.replicate n 'a' ++ acc := by rw [List.replicate_succ]
      rw [h2]

theorem unescape_aRun : ∀ n, unescapeText (List.replicate n 'a') = List.replicate n 'a' := by
  intro n
  induction n with
  | zero => rfl
  | succ n ih =>
      rw [List.replicate_succ]
      show 'a' :: unescapeText (List.replicate n 'a') = _
      rw [ih]

theorem escape_aRun : ∀ n, escapeText (List.replicate n 'a') = List.replicate n 'a' := by
  intro n
  induction n with
  | zero => rfl
  | succ n ih =>
      rw [List.replicate_succ]
      show escapeChar 'a' ++ escapeText (List.replicate n 'a') = _
      rw [ih]
      rfl
theorem tok_tail_c7 (acc : List Char) (hne : acc.isEmpty = false) :
    tokenizeAux (("<div>bb</div>").toList) false acc
      = .ttext (unescapeText acc.reverse) :: .topen ("div") [] false
        :: .ttext (("bb").toList) :: .tclose ("div") :: [] := by
  have h1 : tokenizeAux (("<div>bb</div>").toList) false acc
      = flushText acc ([.topen ("div") [] false, .ttext (("bb").toList), .tclose ("div")]) := rfl
  rw [h1]
  unfold flushText
  rw [hne]
  simp only [Bool.false_eq_true, if_false]

theorem tok_c7 : tokenizeAux c7Input false []
    = [.ttext (List.replicate 19995 'a'), .topen ("div") [] false, .ttext (("bb").toList),
       .tclose ("div")] := by
  unfold c7Input
  rw [tok_aRun 19995 (("<div>bb</div>").toList) []]
  rw [List.append_nil]
  rw [tok_tail_c7 (List.replicate 19995 'a') rfl]
  rw [List.reverse_replicate, unescape_aRun]

theorem build_c7 (X : List Char) : buildAux [.ttext X, .topen ("div") [] false,
    .ttext (("bb").toList), .tclose ("div")] [] []
    = [.text X, .elem ("div") [] (.cons (.text (("bb").toList)) .nil)] := rfl

theorem parse_c7 : parseHtml c7Input
    = .cons (.text (List.replicate 19995 'a')) (.cons divBBNode .nil) := by
  unfold parseHtml
  rw [tok_c7, build_c7]
  rfl

theorem cleanPasses_c7 (X : List Char) :
    cleanPasses (.cons (.text X) (.cons divBBNode .nil))
      = .cons (.text X) (.cons divBBNode .nil) := rfl

theorem serialize_c7 (X : List Char) :
    serializeForest (.cons (.text X) (.cons divBBNode .nil))
      = escapeText X ++ ("<div>bb</div>").toList := rfl

theorem c7_noWs : ∀ c ∈ List.replicate 19995 'a' ++ ("<div>bb</div>").toList,
    isWsChar c = false := by
  intro c hc
  rcases List.mem_append.mp hc with h1 | h2
  · rw [List.eq_of_mem_replicate h1]
    rfl
  · clear hc
    revert h2
    revert c
    decide

theorem c7_cleaned_length :
    (List.replicate 19995 'a' ++ ("<div>bb</div>").toList).length = 20008 := by
  rw [List.length_append, List.length_replicate]
  norm_num

theorem findMain_c7 (X : List Char) :
    findMainTag (.cons (.text X) (.cons divBBNode .nil)) = none := rfl

theorem sections_c7 (X : List Char) :
    findAllF sectionPred (.cons (.text X) (.cons divBBNode .nil)) = [divBBNode] := rfl

theorem take_c7 : (List.replicate 19995 'a' ++ ("<div>bb</div>").toList).take 20000
    = List.replicate 19995 'a' ++ ("<div>").toList := by
  rw [List.take_append_eq_append_take]
  rw [List.take_of_length_le (show (List.replicate 19995 'a').length ≤ 20000 by
    rw [List.length_replicate]; norm_num)]
  refine congrArg (fun t => List.replicate 19995 'a' ++ t) ?_
  rw [List.length_replicate]
  decide

theorem clean_html_c7 : clean_html c7Input
    = List.replicate 19995 'a' ++ ("<div>").toList := by
  unfold clean_html
  rw [parse_c7]
  simp only [cleanDoc]
  rw [cleanPasses_c7, serialize_c7, escape_aRun]
  rw [collapse_id_noWs _ c7_noWs, c7_cleaned_length]
  rw [if_pos (show 20008 > MAX_OUTPUT_CHARS by norm_num [MAX_OUTPUT_CHARS])]
  unfold truncate_oversized
  rw [findMain_c7]
  show truncateSections (.cons (.text (List.replicate 19995 'a')) (.cons divBBNode .nil))
    (List.replicate 19995 'a' ++ ("<div>bb</div>").toList) = _
  simp only [truncateSections]
  rw [sections_c7]
  rw [show ([divBBNode].filterMap (fun sec =>
    if reSearch (getTextN sec) then some (serializeNode sec) else none)) = [] from rfl]
  rw [if_pos (show (List.isEmpty []) = true from rfl)]
  show (List.replicate 19995 'a' ++ ("<div>bb</div>").toList).take MAX_OUTPUT_CHARS = _
  exact take_c7

theorem tok_tail_out1 (acc : List Char) (hne : acc.isEmpty = false) :
    tokenizeAux (("<div>").toList) false acc
      = [.ttext (unescapeText acc.reverse), .topen ("div") [] false] := by
  have h1 : tokenizeAux (("<div>").toList) false acc
      = flushText acc ([.topen ("div") [] false]) := rfl
  rw [h1]
  unfold flushText
  rw [hne]
  simp only [Bool.false_eq_true, if_false]

theorem tok_out1 : tokenizeAux (List.replicate 19995 'a' ++ ("<div>").toList) false []
    = [.ttext (List.replicate 19995 'a'), .topen ("div") [] false] := by
  rw [tok_aRun 19995 (("<div>").toList) []]
  rw [List.append_nil]
  rw [tok_tail_out1 (List.replicate 19995 'a') rfl]
  rw [List.reverse_replicate, unescape_aRun]

theorem build_out1 (X : List Char) : buildAux [.ttext X, .topen ("div") [] false] [] []
    = [.text X, emptyDivNode] := rfl

theorem parse_out1 : parseHtml (List.replicate 19995 'a' ++ ("<div>").toList)
    = .cons (.text (List.replicate 19995 'a')) (.cons emptyDivNode .nil) := by
  unfold parseHtml
  rw [tok_out1, build_out1]
  rfl

theorem cleanPasses_out1 (X : List Char) :
    cleanPasses (.cons (.text X) (.cons emptyDivNode .nil)) = .cons (.text X) .nil := rfl

theorem aRun_noWs : ∀ c ∈ List.replicate 19995 'a', isWsChar c = false := by
  intro c hc
  rw [List.eq_of_mem_replicate hc]
  rfl

theorem serialize_out1 (X : List Char) :
    serializeForest (.cons (.text X) .nil) = escapeText X ++ [] := rfl

theorem clean_html_out1 : clean_html (List.replicate 19995 'a' ++ ("<div>").toList)
    = List.replicate 19995 'a' := by
  unfold clean_html
  rw [parse_out1]
  simp only [cleanDoc]
  rw [cleanPasses_out1, serialize_out1, List.append_nil, escape_aRun]
  rw [collapse_id_noWs _ aRun_noWs]
  rw [List.length_replicate]
  rw [if_neg (show ¬ ((19995:Nat) > MAX_OUTPUT_CHARS) by norm_num [MAX_OUTPUT_CHARS])]

/-- C7 counterexample: `clean_html` is not idempotent.  On 19,995 text
characters followed by a keyword-free div, the hard truncation cuts right
after `<div>`; re-cleaning parses the dangling `<div>` as an empty
element and removes it, so the second application returns a strictly
shorter string. -/
theorem C7_counterexample :
    clean_html (clean_html c7Input) ≠ clean_html c7Input := by
  rw [clean_html_c7, clean_html_out1]
  intro h
  have hl := congrArg List.length h
  have h5 : ((("<div>").toList)).length = 5 := rfl
  simp only [List.length_replicate, List.length_append, h5] at hl
  omega

/-- C7 amended: `clean_html` is idempotent on every input whose parse
tree is unchanged by the cleaning passes, whose serialisation is already
whitespace-collapsed and re-parses to the same tree, and which fits the
20,000-character budget (the no-truncation, reparse-stable case); in
general idempotence fails via the hard-truncation path. -/
theorem C7_amended_stable (x : List Char)
    (hpass : cleanPasses (parseHtml x) = parseHtml x)
    (hcol : collapse_whitespace (serializeForest (parseHtml x)) = serializeForest (parseHtml x))
    (hrt : parseHtml (serializeForest (parseHtml x)) = parseHtml x)
    (hlen : (serializeForest (parseHtml x)).length ≤ MAX_OUTPUT_CHARS) :
    clean_html (clean_html x) = clean_html x := by
  have hx : clean_html x = serializeForest (parseHtml x) := by
    unfold clean_html
    simp only [cleanDoc]
    rw [hpass, hcol]
    rw [if_neg (by omega)]
  rw [hx]
  show cleanDoc (parseHtml (serializeForest (parseHtml x))) = serializeForest (parseHtml x)
  rw [hrt]
  simp only [cleanDoc]
  rw [hpass, hcol]
  rw [if_neg (by omega)]

/-- Witness for the amended C7 at a concrete stable input. -/
theorem C7_amended_witness :
    clean_html (clean_html (("<div>$</div>").toList)) = clean_html (("<div>$</div>").toList) :=
  C7_amended_stable (("<div>$</div>").toList) rfl rfl rfl (by decide)
